import Mathlib

/-!
Verification of the DataExplorerPro statistics engine.

This file gives a shallow embedding of the statistics engine of the
repository (the pure numerical routines in `src/utils/statistics.ts`,
re-exported through `src/types.ts`, the column type classifier in
`src/components/FileUpload.tsx`, and the `forceNumericalAll`
re-classification in `src/App.tsx`) and proves or refutes the frozen
claims about it.

JavaScript numbers are modelled by the type `JSNum`: a finite real,
`+Infinity`, `-Infinity`, or `NaN`, with arithmetic following the IEEE
conventions JavaScript uses (`0/0 = NaN`, `1/0 = Infinity`,
`0 * Infinity = NaN`, `NaN` propagating through every operation, and
comparisons with `NaN` being false).  Finite doubles are idealised as
exact real numbers.  Raw cell values (`RawValue`) carry rational
numeric payloads so that value-level operations stay decidable.
-/

/-- A JavaScript number: a finite real, one of the two infinities, or NaN. -/
inductive JSNum : Type
  | num (x : ℝ)
  | inf
  | ninf
  | nan

namespace JSNum

open scoped Classical

/-- JavaScript addition. -/
noncomputable def add : JSNum → JSNum → JSNum
  | num a, num b => num (a + b)
  | num _, inf => inf
  | inf, num _ => inf
  | num _, ninf => ninf
  | ninf, num _ => ninf
  | inf, inf => inf
  | ninf, ninf => ninf
  | inf, ninf => nan
  | ninf, inf => nan
  | nan, _ => nan
  | _, nan => nan

/-- JavaScript negation. -/
noncomputable def neg : JSNum → JSNum
  | num a => num (-a)
  | inf => ninf
  | ninf => inf
  | nan => nan

/-- JavaScript subtraction, `a - b = a + (-b)`. -/
noncomputable def sub (a b : JSNum) : JSNum := add a (neg b)

/-- JavaScript multiplication (`0 * Infinity = NaN`). -/
noncomputable def mul : JSNum → JSNum → JSNum
  | num a, num b => num (a * b)
  | num a, inf => if 0 < a then inf else if a < 0 then ninf else nan
  | inf, num a => if 0 < a then inf else if a < 0 then ninf else nan
  | num a, ninf => if 0 < a then ninf else if a < 0 then inf else nan
  | ninf, num a => if 0 < a then ninf else if a < 0 then inf else nan
  | inf, inf => inf
  | ninf, ninf => inf
  | inf, ninf => ninf
  | ninf, inf => ninf
  | nan, _ => nan
  | _, nan => nan

/-- JavaScript division (`x/0` is a signed infinity for `x ≠ 0`, `0/0 = NaN`,
finite`/±Infinity = 0`, `±Infinity/±Infinity = NaN`). -/
noncomputable def div : JSNum → JSNum → JSNum
  | num a, num b =>
      if b = 0 then (if 0 < a then inf else if a < 0 then ninf else nan)
      else num (a / b)
  | num _, inf => num 0
  | num _, ninf => num 0
  | inf, num a => if 0 ≤ a then inf else ninf
  | ninf, num a => if 0 ≤ a then ninf else inf
  | inf, inf => nan
  | inf, ninf => nan
  | ninf, inf => nan
  | ninf, ninf => nan
  | nan, _ => nan
  | _, nan => nan

/-- JavaScript `Math.sqrt` (negative arguments give NaN). -/
noncomputable def sqrt : JSNum → JSNum
  | num a => if a < 0 then nan else num (Real.sqrt a)
  | inf => inf
  | ninf => nan
  | nan => nan

/-- JavaScript `Math.exp`. -/
noncomputable def exp : JSNum → JSNum
  | num a => num (Real.exp a)
  | inf => inf
  | ninf => num 0
  | nan => nan

/-- JavaScript `Math.abs`. -/
noncomputable def abs : JSNum → JSNum
  | num a => num |a|
  | inf => inf
  | ninf => inf
  | nan => nan

/-- JavaScript `Math.max` on two arguments (NaN-propagating). -/
noncomputable def max2 : JSNum → JSNum → JSNum
  | nan, _ => nan
  | _, nan => nan
  | num a, num b => num (max a b)
  | inf, _ => inf
  | _, inf => inf
  | ninf, b => b
  | a, ninf => a

/-- JavaScript `Math.min` on two arguments (NaN-propagating). -/
noncomputable def min2 : JSNum → JSNum → JSNum
  | nan, _ => nan
  | _, nan => nan
  | num a, num b => num (min a b)
  | ninf, _ => ninf
  | _, ninf => ninf
  | inf, b => b
  | a, inf => a

/-- JavaScript `a < b` comparison (false whenever an operand is NaN). -/
def lt : JSNum → JSNum → Prop
  | num a, num b => a < b
  | num _, inf => True
  | ninf, num _ => True
  | ninf, inf => True
  | _, _ => False

/-- Whether a `JSNum` is NaN, as a Boolean (JavaScript `isNaN` on numbers). -/
def isNan : JSNum → Bool
  | nan => true
  | _ => false

/-- Sum of a list of JavaScript numbers, as `reduce((a, b) => a + b, 0)`. -/
noncomputable def sumJS (l : List JSNum) : JSNum := l.foldl add (num 0)

@[simp] theorem add_num_num (a b : ℝ) : add (num a) (num b) = num (a + b) := rfl
@[simp] theorem add_nan_left (a : JSNum) : add nan a = nan := by cases a <;> rfl
@[simp] theorem add_nan_right (a : JSNum) : add a nan = nan := by cases a <;> rfl
@[simp] theorem neg_num (a : ℝ) : neg (num a) = num (-a) := rfl
@[simp] theorem sub_num_num (a b : ℝ) : sub (num a) (num b) = num (a + -b) := rfl
@[simp] theorem sub_nan_left (a : JSNum) : sub nan a = nan := by
  cases a <;> rfl
@[simp] theorem sub_nan_right (a : JSNum) : sub a nan = nan := by
  cases a <;> rfl
@[simp] theorem mul_num_num (a b : ℝ) : mul (num a) (num b) = num (a * b) := rfl
@[simp] theorem mul_nan_left (a : JSNum) : mul nan a = nan := by cases a <;> rfl
@[simp] theorem mul_nan_right (a : JSNum) : mul a nan = nan := by cases a <;> rfl
@[simp] theorem div_nan_left (a : JSNum) : div nan a = nan := by cases a <;> rfl
@[simp] theorem div_nan_right (a : JSNum) : div a nan = nan := by cases a <;> rfl
@[simp] theorem sqrt_nan : sqrt nan = nan := rfl
@[simp] theorem exp_nan : exp nan = nan := rfl
@[simp] theorem abs_nan : abs nan = nan := rfl
@[simp] theorem abs_num (a : ℝ) : abs (num a) = num |a| := rfl
@[simp] theorem exp_num (a : ℝ) : exp (num a) = num (Real.exp a) := rfl
@[simp] theorem max2_nan_left (a : JSNum) : max2 nan a = nan := by cases a <;> rfl
@[simp] theorem max2_nan_right (a : JSNum) : max2 a nan = nan := by cases a <;> rfl
@[simp] theorem min2_nan_left (a : JSNum) : min2 nan a = nan := by cases a <;> rfl
@[simp] theorem min2_nan_right (a : JSNum) : min2 a nan = nan := by cases a <;> rfl
@[simp] theorem max2_num_num (a b : ℝ) : max2 (num a) (num b) = num (max a b) := rfl
@[simp] theorem min2_num_num (a b : ℝ) : min2 (num a) (num b) = num (min a b) := rfl
@[simp] theorem isNan_num (a : ℝ) : isNan (num a) = false := rfl
@[simp] theorem isNan_inf : isNan inf = false := rfl
@[simp] theorem isNan_ninf : isNan ninf = false := rfl
@[simp] theorem isNan_nan : isNan nan = true := rfl

theorem div_num_num_of_ne {a b : ℝ} (h : b ≠ 0) :
    div (num a) (num b) = num (a / b) := by
  simp [div, h]

theorem div_num_zero_pos {a : ℝ} (h : 0 < a) : div (num a) (num 0) = inf := by
  simp [div, h]

@[simp] theorem div_zero_zero : div (num 0) (num 0) = nan := by
  simp [div]

theorem sqrt_num_of_nonneg {a : ℝ} (h : 0 ≤ a) :
    sqrt (num a) = num (Real.sqrt a) := by
  simp [sqrt, not_lt.mpr h]

@[simp] theorem num_inj {a b : ℝ} : num a = num b ↔ a = b := by
  constructor
  · intro h; cases h; rfl
  · intro h; rw [h]

theorem mul_comm2 (a b : JSNum) : mul a b = mul b a := by
  cases a <;> cases b <;> simp [mul, mul_comm]

theorem sumJS_go (l : List ℝ) (a : ℝ) :
    (l.map num).foldl add (num a) = num (a + l.sum) := by
  induction l generalizing a with
  | nil => simp
  | cons x xs ih => simp [ih, add_assoc]

/-- A fold of JavaScript additions over finite reals is the real sum. -/
theorem sumJS_map_num (l : List ℝ) : sumJS (l.map num) = num l.sum := by
  simpa using sumJS_go l 0

end JSNum

/-! ## Raw cell values

A raw cell value as it reaches the engine: `null`/`undefined`, a boolean,
a finite number, or a string.  Numeric payloads are rationals so that
equality of raw values stays decidable (JavaScript data imported from
CSV/XLSX is always a finite double, idealised here as an exact rational).
-/

/-- A raw JavaScript cell value. -/
inductive RawValue : Type
  | null
  | undefined
  | bool (b : Bool)
  | num (q : ℚ)
  | str (s : String)
deriving DecidableEq

/-- Whitespace trim on a character list (JavaScript `String.trim`,
implemented directly so that it evaluates by kernel reduction). -/
def trimList (cs : List Char) : List Char :=
  ((cs.dropWhile Char.isWhitespace).reverse.dropWhile Char.isWhitespace).reverse

/-- Value of a list of decimal digit characters (most significant first). -/
def natVal (cs : List Char) : ℕ :=
  cs.foldl (fun a c => a * 10 + (c.toNat - 48)) 0

/-- Unsigned decimal literal of the form `digits`, `digits.digits`,
`.digits` or `digits.`; `none` when the character list is not entirely
such a literal.  (Exponent, hexadecimal and `Infinity` forms accepted by
JavaScript are outside the model; no input used in this file takes those
shapes.) -/
def decFull (cs : List Char) : Option ℚ :=
  let ip := cs.takeWhile (·.isDigit)
  let rest := cs.dropWhile (·.isDigit)
  match rest with
  | [] => if ip.isEmpty then none else some (natVal ip : ℚ)
  | '.' :: fr =>
      if fr.all (·.isDigit) then
        if ip.isEmpty && fr.isEmpty then none
        else some ((natVal ip : ℚ) + (natVal fr : ℚ) / (10 : ℚ) ^ fr.length)
      else none
  | _ => none

/-- Longest unsigned decimal literal prefix of a character list, `none`
when there is no leading digit (`parseFloat`-style prefix parsing). -/
def decPrefix (cs : List Char) : Option ℚ :=
  let ip := cs.takeWhile (·.isDigit)
  let rest := cs.dropWhile (·.isDigit)
  let fr := match rest with
    | '.' :: r => r.takeWhile (·.isDigit)
    | _ => []
  if ip.isEmpty && fr.isEmpty then none
  else some ((natVal ip : ℚ) + (natVal fr : ℚ) / (10 : ℚ) ^ fr.length)

/-- Optional leading sign, then `core` on the remaining characters. -/
def signed (core : List Char → Option ℚ) : List Char → Option ℚ
  | '-' :: r => (core r).map (fun q => -q)
  | '+' :: r => core r
  | cs => core cs

/-- JavaScript `Number(s)` for a string `s`: `some q` when the conversion
yields the (finite) number `q`, `none` when it yields NaN.  The empty or
whitespace-only string converts to `0`. -/
def numberOfString (s : String) : Option ℚ :=
  let t := trimList s.toList
  if t.isEmpty then some 0 else signed decFull t

/-- JavaScript `parseFloat(s)` for a string `s`: `some q` when a numeric
prefix exists, `none` when the result is NaN. -/
def parseFloatString (s : String) : Option ℚ :=
  signed decPrefix (s.toList.dropWhile Char.isWhitespace)

/-- JavaScript `Number(v)` on a raw value (`none` encodes NaN):
`Number(null) = 0`, `Number(undefined) = NaN`, booleans convert to 0/1,
strings through `numberOfString`. -/
def jsNumberQ : RawValue → Option ℚ
  | .null => some 0
  | .undefined => none
  | .bool b => some (if b then 1 else 0)
  | .num q => some q
  | .str s => numberOfString s

/-- JavaScript `parseFloat(String(v))` on a raw value (`none` encodes NaN).
For a finite number, `String` followed by `parseFloat` round-trips to the
same number; `String(null) = "null"`, `String(undefined) = "undefined"`
and `String(bool)` parse to NaN. -/
def jsParseFloatQ : RawValue → Option ℚ
  | .null => none
  | .undefined => none
  | .bool _ => none
  | .num q => some q
  | .str s => parseFloatString s

/-- JavaScript `String(v).trim() === ''` on a raw value: only a
whitespace-only string satisfies it (`String(null) = "null"` etc. are
never empty, and `String` of a finite number is never empty). -/
def strTrimEmpty : RawValue → Bool
  | .str s => trimList s.toList = []
  | _ => false

/-- JavaScript `Number(v)` as a `JSNum` (NaN when the conversion fails). -/
def jsNumber (v : RawValue) : JSNum :=
  match jsNumberQ v with
  | some q => .num (q : ℝ)
  | none => .nan

/-- The `Number` coercion of a raw value is never an infinity. -/
theorem jsNumber_ne_inf (v : RawValue) : jsNumber v ≠ .inf := by
  unfold jsNumber; cases jsNumberQ v <;> simp

/-- The `Number` coercion of a raw value is never negative infinity. -/
theorem jsNumber_ne_ninf (v : RawValue) : jsNumber v ≠ .ninf := by
  unfold jsNumber; cases jsNumberQ v <;> simp

/-! ## The statistics engine (`src/utils/statistics.ts`) -/

open scoped Classical

open JSNum in
/-- Star rating of a p-value (`getSignificanceStars` in the source).
Comparisons with NaN are false, so NaN gets no stars. -/
noncomputable def getSignificanceStars (p : JSNum) : String :=
  if lt p (num 0.001) then "***"
  else if lt p (num 0.01) then "**"
  else if lt p (num 0.05) then "*"
  else ""

open JSNum in
/-- P-value of a t statistic via the Abramowitz–Stegun normal-CDF
approximation with a rough small-sample correction (`getPFromT`).
The unused `z` binding of the source is omitted. -/
noncomputable def getPFromT (t : JSNum) (df : ℤ) : JSNum :=
  if df ≤ 0 then num 1
  else
    let tAbs := abs t
    let k := div (num 1) (add (num 1) (mul (num 0.2316419) tAbs))
    let poly :=
      mul (add (mul (add (mul (add (mul (add (mul (num 1.330274429) k)
        (num (-1.821255978))) k) (num 1.781477937)) k)
        (num (-0.356563782))) k) (num 0.319381530)) k
    let normalCDF :=
      sub (num 1)
        (mul (mul (div (num 1) (sqrt (num (2 * Real.pi))))
          (exp (mul (mul (num (-0.5)) tAbs) tAbs))) poly)
    let p0 := mul (num 2) (sub (num 1) normalCDF)
    let p1 :=
      if df < 30 then
        mul p0 (add (num 1) (div (add (mul p0 p0) (num 1)) (num (4 * (df : ℝ)))))
      else p0
    min2 (max2 p1 (num 0)) (num 1)

open JSNum in
/-- P-value of a correlation coefficient at sample size `n`
(`calculatePValue`). -/
noncomputable def calculatePValue (r : JSNum) (n : ℕ) : JSNum :=
  if n ≤ 2 then num 1
  else
    getPFromT
      (mul (abs r)
        (sqrt (div (num ((n : ℝ) - 2)) (sub (num 1) (mul r r)))))
      ((n : ℤ) - 2)

open JSNum in
/-- Pearson correlation coefficient by the sum formula
(`calculatePearson`); the degenerate denominator gives 0. -/
noncomputable def calculatePearson (x y : List JSNum) : JSNum :=
  let n := x.length
  if n ≠ y.length ∨ n = 0 then num 0
  else
    let sumX := sumJS x
    let sumY := sumJS y
    let sumXY := (x.zip y).foldl (fun s p => add s (mul p.1 p.2)) (num 0)
    let sumX2 := x.foldl (fun s a => add s (mul a a)) (num 0)
    let sumY2 := y.foldl (fun s a => add s (mul a a)) (num 0)
    let numerator := sub (mul (num (n : ℝ)) sumXY) (mul sumX sumY)
    let denominator :=
      sqrt (mul (sub (mul (num (n : ℝ)) sumX2) (mul sumX sumX))
        (sub (mul (num (n : ℝ)) sumY2) (mul sumY sumY)))
    if denominator = num 0 then num 0 else div numerator denominator

/-- One pairwise post-hoc comparison record. -/
structure PairwiseComparison where
  group1 : String
  group2 : String
  p : JSNum
  sig : String

/-- Per-group summary built inside `calculateGroupStats`. -/
structure GroupSummary where
  name : String
  n : ℕ
  mean : JSNum
  ssq : JSNum
  variance : JSNum

open JSNum in
/-- Per-group summary: mean, sum of squared deviations, and variance with
the `vals.length - 1 || 1` denominator of the source (so `-1` for an
empty group and `1` for a singleton group). -/
noncomputable def mkGroupSummary (name : String) (vals : List ℝ) : GroupSummary :=
  let n := vals.length
  let mean := div (sumJS (vals.map num)) (num (n : ℝ))
  let ssq := (vals.map num).foldl
    (fun a b => add a (mul (sub b mean) (sub b mean))) (num 0)
  let variance := div ssq (num (if n = 1 then 1 else (n : ℝ) - 1))
  ⟨name, n, mean, ssq, variance⟩

/-- Summaries of all groups, in mapping order. -/
noncomputable def groupData (gs : List (String × List ℝ)) : List GroupSummary :=
  gs.map fun g => mkGroupSummary g.1 g.2

/-- All index-ordered pairs of elements of a list, in the order produced
by the source's nested `for` loops (`i < j`). -/
def allPairs {α : Type _} : List α → List (α × α)
  | [] => []
  | x :: xs => (xs.map fun y => (x, y)) ++ allPairs xs

open JSNum in
/-- Pooled-variance two-sample t-test between two group summaries, as in
the pairwise loop of `calculateGroupStats`. -/
noncomputable def pairwiseTest (g1 g2 : GroupSummary) : PairwiseComparison :=
  let pooledVar :=
    div (add (mul (num ((g1.n : ℝ) - 1)) g1.variance)
      (mul (num ((g2.n : ℝ) - 1)) g2.variance))
      (num ((g1.n : ℝ) + (g2.n : ℝ) - 2))
  let t := div (abs (sub g1.mean g2.mean))
    (sqrt (mul pooledVar
      (add (div (num 1) (num (g1.n : ℝ))) (div (num 1) (num (g2.n : ℝ))))))
  let p := getPFromT t ((g1.n : ℤ) + (g2.n : ℤ) - 2)
  ⟨g1.name, g2.name, p, getSignificanceStars p⟩

/-- The group-comparison report. -/
structure GroupReport where
  test : String
  f : JSNum
  p : JSNum
  etaSq : JSNum
  groups : List GroupSummary
  dfB : ℤ
  dfW : ℤ
  pairwise : List PairwiseComparison

open JSNum in
/-- The report built by `calculateGroupStats` once its two guards have
passed. -/
noncomputable def mkGroupReport (gs : List (String × List ℝ)) : GroupReport :=
  let k := gs.length
  let gd := groupData gs
  let allValues := gs.flatMap Prod.snd
  let nTotal := allValues.length
  let grandMean := div (sumJS (allValues.map num)) (num (nTotal : ℝ))
  let ssb := gd.foldl
    (fun acc g =>
      add acc (mul (num (g.n : ℝ))
        (mul (sub g.mean grandMean) (sub g.mean grandMean)))) (num 0)
  let ssw := gd.foldl (fun acc g => add acc g.ssq) (num 0)
  let dfB : ℤ := (k : ℤ) - 1
  let dfW : ℤ := (nTotal : ℤ) - (k : ℤ)
  let msb := div ssb (num (dfB : ℝ))
  let msw := div ssw (num (dfW : ℝ))
  let f := div msb msw
  let pGlobal := getPFromT (sqrt f) dfW
  let etaSq := div ssb (add ssb ssw)
  let pairwise :=
    if 2 ≤ k then (allPairs gd).map (fun q => pairwiseTest q.1 q.2) else []
  ⟨if k = 2 then "Independent T-test" else "One-way ANOVA",
    f, pGlobal, etaSq, gd, dfB, dfW, pairwise⟩

/-- One-way ANOVA / t-test dispatcher (`calculateGroupStats`): `none`
when there are fewer than two groups in the mapping or `dfWithin ≤ 0`. -/
noncomputable def calculateGroupStats (gs : List (String × List ℝ)) :
    Option GroupReport :=
  if gs.length < 2 then none
  else if ((gs.flatMap Prod.snd).length : ℤ) - (gs.length : ℤ) ≤ 0 then none
  else some (mkGroupReport gs)

/-! ## Summary statistics, classification, datasets -/

/-- Declared kind of a variable. -/
inductive VariableType : Type
  | numerical
  | categorical
  | unknown
deriving DecidableEq

/-- The filter `v !== null && v !== undefined && v !== ''` used by both
`calculateSummaryStats` and the column classifier: note that it compares
with the empty string *without* trimming. -/
def present (v : RawValue) : Bool :=
  !(v == RawValue.null) && !(v == RawValue.undefined) && !(v == RawValue.str "")

/-- JavaScript `String(v)` used as a frequency-table key.  For a finite
number the default rational rendering stands in for JavaScript's decimal
rendering (both are injective on numbers; no claim depends on the exact
key text). -/
def freqKey : RawValue → String
  | .str s => s
  | .null => "null"
  | .undefined => "undefined"
  | .bool b => if b then "true" else "false"
  | .num q => toString q

/-- Increment the count of `key` in an insertion-ordered frequency table,
appending it when absent (JavaScript object update order). -/
def bump : List (String × ℕ) → String → List (String × ℕ)
  | [], key => [(key, 1)]
  | (k0, c) :: rest, key =>
      if k0 = key then (k0, c + 1) :: rest else (k0, c) :: bump rest key

/-- Descriptive statistics of one variable.  Optional fields are absent
exactly when the source's returned object omits them. -/
structure VariableStats where
  count : ℕ
  missing : ℕ
  unique : ℕ
  mean : Option ℚ
  median : Option ℚ
  std : Option ℝ
  min : Option ℚ
  max : Option ℚ
  frequencies : Option (List (String × ℕ))

/-- Numeric pool of a value list: the present values that `Number`-coerce
to a number (`filtered.map(Number).filter(v => !isNaN(v))`). -/
def numsOf (values : List RawValue) : List ℚ :=
  (values.filter present).filterMap jsNumberQ

/-- Per-variable descriptive statistics (`calculateSummaryStats`). -/
noncomputable def calculateSummaryStats (values : List RawValue)
    (type : VariableType) : VariableStats :=
  let filtered := values.filter present
  let n := filtered.length
  let missing := values.length - n
  let unique := filtered.dedup.length
  if type = .categorical ∨ type = .unknown then
    ⟨n, missing, unique, none, none, none, none, none,
      some (filtered.foldl (fun fs v => bump fs (freqKey v)) [])⟩
  else
    let nums := numsOf values
    if nums.length = 0 then
      ⟨0, values.length, 0, none, none, none, none, none, none⟩
    else
      let sorted := nums.mergeSort (· ≤ ·)
      let mean := nums.sum / (nums.length : ℚ)
      let median :=
        if sorted.length % 2 = 0 then
          (sorted.getD (sorted.length / 2 - 1) 0 + sorted.getD (sorted.length / 2) 0) / 2
        else sorted.getD (sorted.length / 2) 0
      let std : ℝ :=
        Real.sqrt ((((nums.map (fun v => (v - mean) ^ 2)).sum / (nums.length : ℚ)) : ℚ) : ℝ)
      ⟨n, missing, unique, some mean, some median, some std,
        some (sorted.getD 0 0), some (sorted.getD (sorted.length - 1) 0), none⟩

/-- A value is numeric-like for the classifier:
`typeof v === 'number' || (!isNaN(Number(v)) && typeof v !== 'boolean')`. -/
def numericLike (v : RawValue) : Bool :=
  (match v with | .num _ => true | _ => false) ||
    ((jsNumberQ v).isSome && (match v with | .bool _ => false | _ => true))

/-- Column type decision of `processRawData` in `FileUpload.tsx`: start
from `unknown`; with at least one present value, `numerical` iff *every*
present value is numeric-like, else `categorical`. -/
def classifyValues (values : List RawValue) : VariableType :=
  let nonNull := values.filter present
  if nonNull.length > 0 then
    if nonNull.all numericLike then .numerical else .categorical
  else .unknown

/-- One imported column. -/
structure DataVariable where
  name : String
  type : VariableType
  values : List RawValue
  stats : VariableStats

/-- A data row: column name to raw value, insertion-ordered. -/
abbrev Row : Type := List (String × RawValue)

/-- JavaScript `row[name]` (an absent key reads as `undefined`). -/
def rowGet (row : Row) (name : String) : RawValue :=
  (row.lookup name).getD .undefined

/-- An imported dataset.  The source's `variables` field is called
`vars` here because `variables` is reserved in Lean. -/
structure Dataset where
  filename : String
  data : List Row
  vars : List DataVariable
  numericalVariables : List String
  categoricalVariables : List String

/-! ## Forced numeric re-classification (`forceNumericalAll` in `App.tsx`) -/

/-- Coercion applied to each stored value when a variable is forced
numeric: absence markers and whitespace-only strings become `null`, and
otherwise `parseFloat(String(val))` with NaN mapped to `null`. -/
def coerceCell (val : RawValue) : RawValue :=
  if val = .null ∨ val = .undefined ∨ strTrimEmpty val then .null
  else
    match jsParseFloatQ val with
    | some q => .num q
    | none => .null

/-- The forcing threshold: at least one parseable value and strictly more
than 10% of the non-null values parseable by `parseFloat`. -/
def shouldBeNumeric (values : List RawValue) : Bool :=
  let nonNull := values.filter
    (fun v => !(v == RawValue.null) && !(v == RawValue.undefined) && !(strTrimEmpty v))
  let numericCount := (nonNull.filter (fun v => (jsParseFloatQ v).isSome)).length
  decide (0 < numericCount) &&
    decide ((1 : ℚ) / 10 < (numericCount : ℚ) / (nonNull.length : ℚ))

/-- Per-variable step of `forceNumericalAll`. -/
noncomputable def forceVariable (v : DataVariable) : DataVariable :=
  if shouldBeNumeric v.values || (v.type == .numerical) then
    let numericValues := v.values.map coerceCell
    ⟨v.name, .numerical, numericValues,
      calculateSummaryStats numericValues .numerical⟩
  else v

/-- Row update of `forceNumericalAll`: every cell under a (now)
numerical variable that is not `null`/`undefined` is re-parsed with
`parseFloat`, NaN becoming `null`. -/
def forceRow (vars : List DataVariable) (row : Row) : Row :=
  vars.foldl
    (fun r v =>
      if v.type = .numerical then
        r.map (fun kv =>
          if kv.1 = v.name ∧ kv.2 ≠ .null ∧ kv.2 ≠ .undefined then
            (kv.1,
              match jsParseFloatQ kv.2 with
              | some q => .num q
              | none => .null)
          else kv)
      else r)
    row

/-- The forced re-classification over a whole dataset. -/
noncomputable def forceNumericalAll (d : Dataset) : Dataset :=
  let updatedVariables := d.vars.map forceVariable
  let updatedData := d.data.map (forceRow updatedVariables)
  ⟨d.filename, updatedData, updatedVariables,
    ((updatedVariables.filter (fun v => v.type == .numerical)).map DataVariable.name),
    ((updatedVariables.filter (fun v => v.type == .categorical)).map DataVariable.name)⟩

/-! ## Correlation matrix (`getCorrelationMatrix`) -/

/-- One correlation-matrix cell. -/
structure CorrelationResult where
  x : String
  y : String
  r : JSNum
  p : JSNum
  n : ℕ
  significance : String

/-- Pairwise-complete cases for one ordered variable pair: both `Number`
coercions must be non-NaN. -/
def corrPairs (data : List Row) (xv yv : String) : List (JSNum × JSNum) :=
  (data.map (fun row => (jsNumber (rowGet row xv), jsNumber (rowGet row yv)))).filter
    (fun p => !p.1.isNan && !p.2.isNan)

/-- One cell of the correlation matrix for the ordered pair `(xv, yv)`. -/
noncomputable def corrEntry (data : List Row) (xv yv : String) :
    CorrelationResult :=
  let pairs := corrPairs data xv yv
  let r := calculatePearson (pairs.map Prod.fst) (pairs.map Prod.snd)
  let p := calculatePValue r pairs.length
  ⟨xv, yv, r, p, pairs.length, getSignificanceStars p⟩

/-- The full correlation matrix, one record per ordered pair, in the
nested-loop order of the source. -/
noncomputable def getCorrelationMatrix (data : List Row) (vars : List String) :
    List CorrelationResult :=
  vars.flatMap (fun xv => vars.map (fun yv => corrEntry data xv yv))

/-! ## Range of the p-value approximation -/

/-- Real-valued form of the body of `getPFromT` for a finite t statistic
(before the final clamp to `[0, 1]`). -/
noncomputable def pApprox (x : ℝ) (df : ℤ) : ℝ :=
  let k := 1 / (1 + 0.2316419 * |x|)
  let poly :=
    ((((1.330274429 * k + -1.821255978) * k + 1.781477937) * k +
      -0.356563782) * k + 0.319381530) * k
  let normalCDF :=
    1 - 1 / Real.sqrt (2 * Real.pi) * Real.exp (-0.5 * |x| * |x|) * poly
  let p0 := 2 * (1 - normalCDF)
  if df < 30 then p0 * (1 + (p0 * p0 + 1) / (4 * (df : ℝ))) else p0

theorem getPFromT_of_nonpos {t : JSNum} {df : ℤ} (h : df ≤ 0) :
    getPFromT t df = JSNum.num 1 := by
  simp [getPFromT, h]

theorem getPFromT_num_eq (x : ℝ) {df : ℤ} (h : 0 < df) :
    getPFromT (JSNum.num x) df = JSNum.num (min (max (pApprox x df) 0) 1) := by
  have h1 : (1 : ℝ) + 0.2316419 * |x| ≠ 0 := by positivity
  have h2p : (0 : ℝ) ≤ 2 * Real.pi := by positivity
  have h2 : Real.sqrt (2 * Real.pi) ≠ 0 := by positivity
  have h3 : (4 * (df : ℝ)) ≠ 0 := by
    have : (0 : ℝ) < (df : ℝ) := by exact_mod_cast h
    positivity
  simp only [getPFromT, pApprox, if_neg (not_le.mpr h)]
  rw [JSNum.sqrt_num_of_nonneg h2p]
  simp only [JSNum.abs_num, JSNum.mul_num_num, JSNum.add_num_num,
    JSNum.div_num_num_of_ne h1, JSNum.div_num_num_of_ne h2]
  split_ifs with h30
  · simp only [JSNum.mul_num_num, JSNum.add_num_num, JSNum.sub_num_num,
      JSNum.exp_num, JSNum.div_num_num_of_ne h3, JSNum.max2_num_num,
      JSNum.min2_num_num, JSNum.num_inj]
    ring_nf
  · simp only [JSNum.mul_num_num, JSNum.add_num_num, JSNum.sub_num_num,
      JSNum.exp_num, JSNum.max2_num_num, JSNum.min2_num_num, JSNum.num_inj]
    ring_nf

@[simp] theorem JSNum.abs_inf : JSNum.abs .inf = .inf := rfl
@[simp] theorem JSNum.abs_ninf : JSNum.abs .ninf = .inf := rfl
@[simp] theorem JSNum.exp_ninf : JSNum.exp .ninf = .num 0 := rfl
@[simp] theorem JSNum.exp_inf : JSNum.exp .inf = .inf := rfl
@[simp] theorem JSNum.add_num_inf (a : ℝ) : JSNum.add (.num a) .inf = .inf := rfl
@[simp] theorem JSNum.div_num_inf (a : ℝ) : JSNum.div (.num a) .inf = .num 0 := rfl
@[simp] theorem JSNum.mul_ninf_inf : JSNum.mul .ninf .inf = .ninf := rfl
@[simp] theorem JSNum.sqrt_inf : JSNum.sqrt .inf = .inf := rfl
@[simp] theorem JSNum.sqrt_ninf : JSNum.sqrt .ninf = .nan := rfl

theorem JSNum.mul_num_inf_of_pos {a : ℝ} (h : 0 < a) :
    JSNum.mul (.num a) .inf = .inf := by
  simp [JSNum.mul, h]

theorem JSNum.mul_num_inf_of_neg {a : ℝ} (h : a < 0) :
    JSNum.mul (.num a) .inf = .ninf := by
  simp [JSNum.mul, h, asymm h]

theorem getPFromT_inf {df : ℤ} (h : 0 < df) : getPFromT .inf df = .num 0 := by
  have h2p : (0 : ℝ) ≤ 2 * Real.pi := by positivity
  have h2 : Real.sqrt (2 * Real.pi) ≠ 0 := by positivity
  have h3 : (4 * (df : ℝ)) ≠ 0 := by
    have : (0 : ℝ) < (df : ℝ) := by exact_mod_cast h
    positivity
  simp only [getPFromT, if_neg (not_le.mpr h)]
  rw [JSNum.sqrt_num_of_nonneg h2p]
  simp only [JSNum.abs_inf]
  rw [JSNum.mul_num_inf_of_pos (by norm_num : (0:ℝ) < 0.2316419)]
  simp only [JSNum.add_num_inf, JSNum.div_num_inf]
  rw [JSNum.mul_num_inf_of_neg (by norm_num : (-0.5:ℝ) < 0)]
  simp only [JSNum.mul_ninf_inf, JSNum.exp_ninf, JSNum.mul_num_num,
    JSNum.add_num_num, JSNum.sub_num_num, JSNum.div_num_num_of_ne h2]
  split_ifs with h30
  · simp only [JSNum.mul_num_num, JSNum.add_num_num,
      JSNum.div_num_num_of_ne h3, JSNum.max2_num_num, JSNum.min2_num_num,
      JSNum.num_inj]
    norm_num
  · simp only [JSNum.max2_num_num, JSNum.min2_num_num, JSNum.num_inj]
    norm_num

theorem getPFromT_ninf {df : ℤ} (h : 0 < df) : getPFromT .ninf df = .num 0 :=
  getPFromT_inf h

theorem getPFromT_nan {df : ℤ} (h : 0 < df) : getPFromT .nan df = .nan := by
  simp only [getPFromT, if_neg (not_le.mpr h)]
  split_ifs <;> simp

/-- The clamped p-value approximation is in `[0, 1]` whenever the t
statistic is not NaN, for any degrees of freedom. -/
theorem getPFromT_mem_of_ne_nan {t : JSNum} (ht : t ≠ .nan) (df : ℤ) :
    ∃ a, getPFromT t df = .num a ∧ 0 ≤ a ∧ a ≤ 1 := by
  rcases le_or_lt df 0 with h | h
  · exact ⟨1, getPFromT_of_nonpos h, by norm_num⟩
  · cases t with
    | num x =>
        exact ⟨_, getPFromT_num_eq x h,
          le_min (le_max_right _ _) zero_le_one, min_le_right _ _⟩
    | inf => exact ⟨0, getPFromT_inf h, le_refl 0, zero_le_one⟩
    | ninf => exact ⟨0, getPFromT_ninf h, le_refl 0, zero_le_one⟩
    | nan => exact absurd rfl ht

/-- Every value of `getPFromT` is in `[0, 1]` or NaN. -/
theorem getPFromT_mem (t : JSNum) (df : ℤ) :
    (∃ a, getPFromT t df = .num a ∧ 0 ≤ a ∧ a ≤ 1) ∨ getPFromT t df = .nan := by
  by_cases ht : t = .nan
  · rcases le_or_lt df 0 with h | h
    · exact Or.inl ⟨1, getPFromT_of_nonpos h, by norm_num⟩
    · exact Or.inr (ht ▸ getPFromT_nan h)
  · exact Or.inl (getPFromT_mem_of_ne_nan ht df)

/-! ## Cauchy–Schwarz for paired samples -/

/-- Sum of the first components of a paired sample. -/
def sumFst (L : List (ℝ × ℝ)) : ℝ := (L.map Prod.fst).sum

/-- Sum of the second components of a paired sample. -/
def sumSnd (L : List (ℝ × ℝ)) : ℝ := (L.map Prod.snd).sum

/-- Sum of the products of a paired sample. -/
def sumProd (L : List (ℝ × ℝ)) : ℝ := (L.map fun p => p.1 * p.2).sum

/-- Sum of squared first components. -/
def sumFstSq (L : List (ℝ × ℝ)) : ℝ := (L.map fun p => p.1 ^ 2).sum

/-- Sum of squared second components. -/
def sumSndSq (L : List (ℝ × ℝ)) : ℝ := (L.map fun p => p.2 ^ 2).sum

/-- Numerator `n·Σxy − Σx·Σy` of the Pearson formula. -/
def pearsonNum (L : List (ℝ × ℝ)) : ℝ :=
  L.length * sumProd L - sumFst L * sumSnd L

/-- First factor `n·Σx² − (Σx)²` under the Pearson square root. -/
def pearsonVarX (L : List (ℝ × ℝ)) : ℝ :=
  L.length * sumFstSq L - sumFst L ^ 2

/-- Second factor `n·Σy² − (Σy)²` under the Pearson square root. -/
def pearsonVarY (L : List (ℝ × ℝ)) : ℝ :=
  L.length * sumSndSq L - sumSnd L ^ 2

@[simp] theorem sumFst_nil : sumFst [] = 0 := rfl
@[simp] theorem sumSnd_nil : sumSnd [] = 0 := rfl
@[simp] theorem sumProd_nil : sumProd [] = 0 := rfl
@[simp] theorem sumFstSq_nil : sumFstSq [] = 0 := rfl
@[simp] theorem sumSndSq_nil : sumSndSq [] = 0 := rfl
@[simp] theorem sumFst_cons (p : ℝ × ℝ) (L : List (ℝ × ℝ)) :
    sumFst (p :: L) = p.1 + sumFst L := by simp [sumFst]
@[simp] theorem sumSnd_cons (p : ℝ × ℝ) (L : List (ℝ × ℝ)) :
    sumSnd (p :: L) = p.2 + sumSnd L := by simp [sumSnd]
@[simp] theorem sumProd_cons (p : ℝ × ℝ) (L : List (ℝ × ℝ)) :
    sumProd (p :: L) = p.1 * p.2 + sumProd L := by simp [sumProd]
@[simp] theorem sumFstSq_cons (p : ℝ × ℝ) (L : List (ℝ × ℝ)) :
    sumFstSq (p :: L) = p.1 ^ 2 + sumFstSq L := by simp [sumFstSq]
@[simp] theorem sumSndSq_cons (p : ℝ × ℝ) (L : List (ℝ × ℝ)) :
    sumSndSq (p :: L) = p.2 ^ 2 + sumSndSq L := by simp [sumSndSq]

theorem sumFstSq_nonneg (L : List (ℝ × ℝ)) : 0 ≤ sumFstSq L := by
  refine List.sum_nonneg ?_
  intro x hx
  obtain ⟨p, -, rfl⟩ := List.mem_map.mp hx
  positivity

theorem sumSndSq_nonneg (L : List (ℝ × ℝ)) : 0 ≤ sumSndSq L := by
  refine List.sum_nonneg ?_
  intro x hx
  obtain ⟨p, -, rfl⟩ := List.mem_map.mp hx
  positivity

/-- Cauchy–Schwarz for paired samples, plain (uncentered) form. -/
theorem sumProd_sq_le (L : List (ℝ × ℝ)) :
    sumProd L ^ 2 ≤ sumFstSq L * sumSndSq L := by
  induction L with
  | nil => simp
  | cons p L ih =>
      obtain ⟨a, b⟩ := p
      have hSx := sumFstSq_nonneg L
      have hSy := sumSndSq_nonneg L
      simp only [sumProd_cons, sumFstSq_cons, sumSndSq_cons]
      rcases eq_or_lt_of_le hSy with hSy0 | hSy0
      · have hS : sumProd L = 0 := by
          have h0 : sumProd L ^ 2 ≤ 0 := by
            calc sumProd L ^ 2 ≤ sumFstSq L * sumSndSq L := ih
            _ = 0 := by rw [← hSy0]; ring
          have := sq_nonneg (sumProd L)
          nlinarith [sq_abs (sumProd L)]
        rw [hS, ← hSy0]
        nlinarith [mul_nonneg hSx (sq_nonneg b)]
      · nlinarith [sq_nonneg (a * sumSndSq L - b * sumProd L),
          mul_nonneg hSy0.le (sub_nonneg.mpr ih),
          mul_nonneg (sq_nonneg b) (sub_nonneg.mpr ih)]

theorem sum_center_mul (L : List (ℝ × ℝ)) (a b : ℝ) :
    (L.map fun p => (p.1 - a) * (p.2 - b)).sum =
      sumProd L - a * sumSnd L - b * sumFst L + L.length * (a * b) := by
  induction L with
  | nil => simp
  | cons q L ih => simp [ih]; ring

theorem sum_center_fst_sq (L : List (ℝ × ℝ)) (a : ℝ) :
    (L.map fun p => (p.1 - a) ^ 2).sum =
      sumFstSq L - 2 * a * sumFst L + L.length * a ^ 2 := by
  induction L with
  | nil => simp
  | cons q L ih => simp [ih]; ring

theorem sum_center_snd_sq (L : List (ℝ × ℝ)) (b : ℝ) :
    (L.map fun p => (p.2 - b) ^ 2).sum =
      sumSndSq L - 2 * b * sumSnd L + L.length * b ^ 2 := by
  induction L with
  | nil => simp
  | cons q L ih => simp [ih]; ring

/-- Cauchy–Schwarz in the centered (Pearson) form. -/
theorem pearsonNum_sq_le (L : List (ℝ × ℝ)) :
    pearsonNum L ^ 2 ≤ pearsonVarX L * pearsonVarY L := by
  rcases Nat.eq_zero_or_pos L.length with hn | hn
  · rw [List.length_eq_zero] at hn
    subst hn
    simp [pearsonNum, pearsonVarX, pearsonVarY]
  have hnR : (0 : ℝ) < (L.length : ℝ) := by exact_mod_cast hn
  have key := sumProd_sq_le (L.map (fun p =>
    (p.1 - sumFst L / L.length, p.2 - sumSnd L / L.length)))
  have e1 : sumProd (L.map (fun p =>
      (p.1 - sumFst L / L.length, p.2 - sumSnd L / L.length))) =
      pearsonNum L / L.length := by
    have hm : sumProd (L.map (fun p =>
        (p.1 - sumFst L / L.length, p.2 - sumSnd L / L.length))) =
        (L.map fun p =>
          (p.1 - sumFst L / L.length) * (p.2 - sumSnd L / L.length)).sum := by
      rw [sumProd, List.map_map]; rfl
    rw [hm, sum_center_mul, pearsonNum]
    field_simp
    ring
  have e2 : sumFstSq (L.map (fun p =>
      (p.1 - sumFst L / L.length, p.2 - sumSnd L / L.length))) =
      pearsonVarX L / L.length := by
    have hm : sumFstSq (L.map (fun p =>
        (p.1 - sumFst L / L.length, p.2 - sumSnd L / L.length))) =
        (L.map fun p => (p.1 - sumFst L / L.length) ^ 2).sum := by
      rw [sumFstSq, List.map_map]; rfl
    rw [hm, sum_center_fst_sq, pearsonVarX]
    field_simp
    ring
  have e3 : sumSndSq (L.map (fun p =>
      (p.1 - sumFst L / L.length, p.2 - sumSnd L / L.length))) =
      pearsonVarY L / L.length := by
    have hm : sumSndSq (L.map (fun p =>
        (p.1 - sumFst L / L.length, p.2 - sumSnd L / L.length))) =
        (L.map fun p => (p.2 - sumSnd L / L.length) ^ 2).sum := by
      rw [sumSndSq, List.map_map]; rfl
    rw [hm, sum_center_snd_sq, pearsonVarY]
    field_simp
    ring
  rw [e1, e2, e3, div_pow, div_mul_div_comm, ← pow_two ((L.length : ℝ))] at key
  have hn2 : (0 : ℝ) < ((L.length : ℝ)) ^ 2 := by positivity
  have key2 := mul_le_mul_of_nonneg_right key hn2.le
  calc pearsonNum L ^ 2
      = pearsonNum L ^ 2 / (L.length : ℝ) ^ 2 * (L.length : ℝ) ^ 2 := by
        field_simp
    _ ≤ pearsonVarX L * pearsonVarY L / (L.length : ℝ) ^ 2 *
        (L.length : ℝ) ^ 2 := key2
    _ = pearsonVarX L * pearsonVarY L := by field_simp

theorem pearsonVarX_nonneg (L : List (ℝ × ℝ)) : 0 ≤ pearsonVarX L := by
  rcases Nat.eq_zero_or_pos L.length with hn | hn
  · rw [List.length_eq_zero] at hn; subst hn; simp [pearsonVarX]
  have hnR : (0 : ℝ) < (L.length : ℝ) := by exact_mod_cast hn
  have hs : 0 ≤ (L.map fun p => (p.1 - sumFst L / L.length) ^ 2).sum := by
    refine List.sum_nonneg ?_
    intro x hx
    obtain ⟨p, -, rfl⟩ := List.mem_map.mp hx
    positivity
  rw [sum_center_fst_sq] at hs
  have e : pearsonVarX L = (L.length : ℝ) *
      (sumFstSq L - 2 * (sumFst L / L.length) * sumFst L +
        L.length * (sumFst L / L.length) ^ 2) := by
    rw [pearsonVarX]; field_simp; ring
  rw [e]
  exact mul_nonneg hnR.le hs

theorem pearsonVarY_nonneg (L : List (ℝ × ℝ)) : 0 ≤ pearsonVarY L := by
  rcases Nat.eq_zero_or_pos L.length with hn | hn
  · rw [List.length_eq_zero] at hn; subst hn; simp [pearsonVarY]
  have hnR : (0 : ℝ) < (L.length : ℝ) := by exact_mod_cast hn
  have hs : 0 ≤ (L.map fun p => (p.2 - sumSnd L / L.length) ^ 2).sum := by
    refine List.sum_nonneg ?_
    intro x hx
    obtain ⟨p, -, rfl⟩ := List.mem_map.mp hx
    positivity
  rw [sum_center_snd_sq] at hs
  have e : pearsonVarY L = (L.length : ℝ) *
      (sumSndSq L - 2 * (sumSnd L / L.length) * sumSnd L +
        L.length * (sumSnd L / L.length) ^ 2) := by
    rw [pearsonVarY]; field_simp; ring
  rw [e]
  exact mul_nonneg hnR.le hs

/-! ## Evaluating `calculatePearson` on finite real samples -/

theorem foldl_sq_num (l : List ℝ) (c : ℝ) :
    (l.map JSNum.num).foldl (fun s a => JSNum.add s (JSNum.mul a a))
      (JSNum.num c) = JSNum.num (c + (l.map fun v => v ^ 2).sum) := by
  induction l generalizing c with
  | nil => simp
  | cons x xs ih => simp [ih, sq]; ring

theorem foldl_prod_num (M : List (ℝ × ℝ)) (c : ℝ) :
    (M.map fun p => ((JSNum.num p.1, JSNum.num p.2) : JSNum × JSNum)).foldl
      (fun s p => JSNum.add s (JSNum.mul p.1 p.2)) (JSNum.num c) =
      JSNum.num (c + sumProd M) := by
  induction M generalizing c with
  | nil => simp
  | cons x xs ih => simp [ih, sumProd]; ring

theorem zip_map_num (L : List (ℝ × ℝ)) :
    (L.map fun p => JSNum.num p.1).zip (L.map fun p => JSNum.num p.2) =
      L.map fun p => ((JSNum.num p.1, JSNum.num p.2) : JSNum × JSNum) := by
  induction L with
  | nil => rfl
  | cons x xs ih => simp [ih]

/-- On a finite real paired sample, `calculatePearson` returns a finite
correlation whose square is at most 1. -/
theorem calculatePearson_real (L : List (ℝ × ℝ)) :
    ∃ ρ, calculatePearson (L.map fun p => JSNum.num p.1)
        (L.map fun p => JSNum.num p.2) = JSNum.num ρ ∧ ρ ^ 2 ≤ 1 := by
  rcases List.eq_nil_or_concat L with rfl | -
  · exact ⟨0, by simp [calculatePearson], by norm_num⟩
  rcases Nat.eq_zero_or_pos L.length with hn | hn
  · rw [List.length_eq_zero] at hn; subst hn
    exact ⟨0, by simp [calculatePearson], by norm_num⟩
  have hX : (L.map fun p => JSNum.num p.1) = (L.map Prod.fst).map JSNum.num := by
    rw [List.map_map]; rfl
  have hY : (L.map fun p => JSNum.num p.2) = (L.map Prod.snd).map JSNum.num := by
    rw [List.map_map]; rfl
  have hSX : JSNum.sumJS (L.map fun p => JSNum.num p.1) = JSNum.num (sumFst L) := by
    rw [hX, JSNum.sumJS_map_num]; rfl
  have hSY : JSNum.sumJS (L.map fun p => JSNum.num p.2) = JSNum.num (sumSnd L) := by
    rw [hY, JSNum.sumJS_map_num]; rfl
  have hXY : ((L.map fun p => JSNum.num p.1).zip
        (L.map fun p => JSNum.num p.2)).foldl
      (fun s p => JSNum.add s (JSNum.mul p.1 p.2)) (JSNum.num 0) =
      JSNum.num (sumProd L) := by
    rw [zip_map_num, foldl_prod_num]; norm_num
  have hX2 : (L.map fun p => JSNum.num p.1).foldl
      (fun s a => JSNum.add s (JSNum.mul a a)) (JSNum.num 0) =
      JSNum.num (sumFstSq L) := by
    rw [hX, foldl_sq_num]
    rw [List.map_map]
    norm_num [sumFstSq]
    rfl
  have hY2 : (L.map fun p => JSNum.num p.2).foldl
      (fun s a => JSNum.add s (JSNum.mul a a)) (JSNum.num 0) =
      JSNum.num (sumSndSq L) := by
    rw [hY, foldl_sq_num]
    rw [List.map_map]
    norm_num [sumSndSq]
    rfl
  have hvx := pearsonVarX_nonneg L
  have hvy := pearsonVarY_nonneg L
  have hprod : (0 : ℝ) ≤ pearsonVarX L * pearsonVarY L := mul_nonneg hvx hvy
  have hguard : ¬((L.map fun p => JSNum.num p.1).length ≠
      (L.map fun p => JSNum.num p.2).length ∨
      (L.map fun p => JSNum.num p.1).length = 0) := by
    rw [not_or]
    refine ⟨by simp, ?_⟩
    simp only [List.length_map]
    omega
  simp only [calculatePearson]
  rw [if_neg hguard]
  rw [hSX, hSY, hXY, hX2, hY2]
  simp only [List.length_map, JSNum.mul_num_num, JSNum.sub_num_num]
  have eA : ((L.length : ℝ) * sumFstSq L + -(sumFst L * sumFst L)) =
      pearsonVarX L := by rw [pearsonVarX]; ring
  have eB : ((L.length : ℝ) * sumSndSq L + -(sumSnd L * sumSnd L)) =
      pearsonVarY L := by rw [pearsonVarY]; ring
  have eN : ((L.length : ℝ) * sumProd L + -(sumFst L * sumSnd L)) =
      pearsonNum L := by rw [pearsonNum]; ring
  rw [eA, eB, eN, JSNum.sqrt_num_of_nonneg hprod]
  by_cases hz : Real.sqrt (pearsonVarX L * pearsonVarY L) = 0
  · rw [if_pos (by rw [hz])]
    exact ⟨0, rfl, by norm_num⟩
  · rw [if_neg (by simpa using hz), JSNum.div_num_num_of_ne hz]
    refine ⟨_, rfl, ?_⟩
    have hpos : 0 < pearsonVarX L * pearsonVarY L := by
      rcases lt_or_eq_of_le hprod with h | h
      · exact h
      · exact absurd (by rw [← h, Real.sqrt_zero]) hz
    rw [div_pow, Real.sq_sqrt hprod]
    rw [div_le_one hpos]
    exact pearsonNum_sq_le L

/-- For a finite correlation with `ρ² ≤ 1`, `calculatePValue` lands in
`[0, 1]` at every sample size. -/
theorem calculatePValue_mem {ρ : ℝ} (hρ : ρ ^ 2 ≤ 1) (n : ℕ) :
    ∃ a, calculatePValue (JSNum.num ρ) n = JSNum.num a ∧ 0 ≤ a ∧ a ≤ 1 := by
  unfold calculatePValue
  by_cases hn : n ≤ 2
  · rw [if_pos hn]; exact ⟨1, rfl, by norm_num⟩
  · rw [if_neg hn]
    have hdf : (0 : ℤ) < (n : ℤ) - 2 := by omega
    have hn2 : (0 : ℝ) < (n : ℝ) - 2 := by
      have : (2 : ℕ) < n := by omega
      have := (Nat.cast_lt (α := ℝ)).mpr this
      push_cast at this ⊢
      linarith
    simp only [JSNum.abs_num, JSNum.mul_num_num, JSNum.sub_num_num]
    by_cases h1 : (1 : ℝ) + -(ρ * ρ) = 0
    · rw [h1]
      have hρ0 : ρ ≠ 0 := by
        intro h0
        rw [h0] at h1
        norm_num at h1
      rw [JSNum.div_num_zero_pos hn2, JSNum.sqrt_inf,
        JSNum.mul_num_inf_of_pos (abs_pos.mpr hρ0)]
      exact ⟨0, getPFromT_inf hdf, le_refl 0, zero_le_one⟩
    · have h1' : (0 : ℝ) < 1 + -(ρ * ρ) := by
        rcases lt_or_eq_of_le (by nlinarith [sq_nonneg ρ] : (0:ℝ) ≤ 1 + -(ρ * ρ))
          with h | h
        · exact h
        · exact absurd h.symm h1
      rw [JSNum.div_num_num_of_ne h1]
      rw [JSNum.sqrt_num_of_nonneg (by positivity)]
      rw [JSNum.mul_num_num]
      exact getPFromT_mem_of_ne_nan (by simp) _

/-- A non-NaN `Number` coercion is a finite number. -/
theorem jsNumber_eq_num_of_not_nan {v : RawValue}
    (h : (jsNumber v).isNan = false) : ∃ q : ℝ, jsNumber v = .num q := by
  unfold jsNumber at *
  cases hq : jsNumberQ v with
  | none => rw [hq] at h; simp at h
  | some q => exact ⟨q, rfl⟩

/-- The pairwise-complete cases of any ordered variable pair form a
finite real paired sample. -/
theorem corrPairs_real (data : List Row) (xv yv : String) :
    ∃ L : List (ℝ × ℝ), corrPairs data xv yv =
      L.map fun p => ((JSNum.num p.1, JSNum.num p.2) : JSNum × JSNum) := by
  induction data with
  | nil => exact ⟨[], rfl⟩
  | cons row rest ih =>
      obtain ⟨L, hL⟩ := ih
      unfold corrPairs at *
      simp only [List.map_cons, List.filter_cons]
      by_cases hkeep : (!(jsNumber (rowGet row xv)).isNan &&
          !(jsNumber (rowGet row yv)).isNan) = true
      · rw [if_pos hkeep]
        simp only [Bool.and_eq_true, Bool.not_eq_true'] at hkeep
        obtain ⟨a, ha⟩ := jsNumber_eq_num_of_not_nan hkeep.1
        obtain ⟨b, hb⟩ := jsNumber_eq_num_of_not_nan hkeep.2
        exact ⟨(a, b) :: L, by simp [ha, hb, hL]⟩
      · rw [if_neg hkeep]
        exact ⟨L, hL⟩

/-- Every p-value in the correlation matrix is a number in `[0, 1]`. -/
theorem corrEntry_p_mem (data : List Row) (xv yv : String) :
    ∃ a, (corrEntry data xv yv).p = JSNum.num a ∧ 0 ≤ a ∧ a ≤ 1 := by
  obtain ⟨L, hL⟩ := corrPairs_real data xv yv
  have hfst : (corrPairs data xv yv).map Prod.fst =
      (L.map fun p => JSNum.num p.1) := by
    rw [hL, List.map_map]; rfl
  have hsnd : (corrPairs data xv yv).map Prod.snd =
      (L.map fun p => JSNum.num p.2) := by
    rw [hL, List.map_map]; rfl
  obtain ⟨ρ, hρeq, hρ2⟩ := calculatePearson_real L
  simp only [corrEntry]
  rw [hfst, hsnd, hρeq]
  exact calculatePValue_mem hρ2 _

/-- Membership in the correlation matrix is exactly being the entry of an
ordered pair of listed variables. -/
theorem mem_getCorrelationMatrix {data : List Row} {vars : List String}
    {res : CorrelationResult} :
    res ∈ getCorrelationMatrix data vars ↔
      ∃ xv ∈ vars, ∃ yv ∈ vars, res = corrEntry data xv yv := by
  simp only [getCorrelationMatrix, List.mem_flatMap, List.mem_map]
  constructor
  · rintro ⟨xv, hx, yv, hy, rfl⟩
    exact ⟨xv, hx, yv, hy, rfl⟩
  · rintro ⟨xv, hx, yv, hy, rfl⟩
    exact ⟨xv, hx, yv, hy, rfl⟩

/-- Characterisation of a produced group report. -/
theorem calculateGroupStats_eq_some {gs : List (String × List ℝ)}
    {rep : GroupReport} :
    calculateGroupStats gs = some rep ↔
      2 ≤ gs.length ∧ (gs.length : ℤ) < ((gs.flatMap Prod.snd).length : ℤ) ∧
        rep = mkGroupReport gs := by
  unfold calculateGroupStats
  split_ifs with h1 h2
  · constructor
    · intro h; cases h
    · rintro ⟨ha, -, -⟩; omega
  · constructor
    · intro h; cases h
    · rintro ⟨-, hb, -⟩; omega
  · constructor
    · intro h
      refine ⟨by omega, by omega, ?_⟩
      cases h; rfl
    · rintro ⟨-, -, rfl⟩; rfl

theorem mkGroupReport_pairwise {gs : List (String × List ℝ)}
    (hk : 2 ≤ gs.length) :
    (mkGroupReport gs).pairwise =
      (allPairs (groupData gs)).map (fun q => pairwiseTest q.1 q.2) := by
  simp only [mkGroupReport]
  rw [if_pos hk]

theorem mkGroupReport_groups (gs : List (String × List ℝ)) :
    (mkGroupReport gs).groups = groupData gs := rfl

theorem pairwiseTest_p_shape (g1 g2 : GroupSummary) :
    ∃ t df, (pairwiseTest g1 g2).p = getPFromT t df := ⟨_, _, rfl⟩

theorem mkGroupReport_p_shape (gs : List (String × List ℝ)) :
    ∃ t df, (mkGroupReport gs).p = getPFromT t df := ⟨_, _, rfl⟩

/-! ## Claim C2 -/

/-- C2, counterexample: on the degenerate input with two groups of two
identical observations each (all finite values), `calculateGroupStats`
produces a report whose global p-value is NaN, so it is not in `[0, 1]`
as the claim states. -/
theorem groupStats_global_p_nan_cex :
    calculateGroupStats [("A", [(1:ℝ), 1]), ("B", [1, 1])] =
      some (mkGroupReport [("A", [(1:ℝ), 1]), ("B", [1, 1])]) ∧
    (mkGroupReport [("A", [(1:ℝ), 1]), ("B", [1, 1])]).p = JSNum.nan := by
  refine ⟨calculateGroupStats_eq_some.mpr ⟨by norm_num, by norm_num, rfl⟩, ?_⟩
  norm_num [mkGroupReport, groupData, mkGroupSummary, JSNum.sumJS,
    JSNum.div_num_num_of_ne, getPFromT_nan]

/-- C2 (amended): every p-value the engine produces is either a number in
`[0, 1]` or NaN; the correlation p-values are always numbers in `[0, 1]`,
while the group report's global p and the pairwise post-hoc p-values can
be NaN in degenerate zero-variance cases. -/
theorem engine_p_values_unit_or_nan :
    (∀ (data : List Row) (vars : List String) (res : CorrelationResult),
        res ∈ getCorrelationMatrix data vars →
        ∃ a, res.p = JSNum.num a ∧ 0 ≤ a ∧ a ≤ 1) ∧
    (∀ (gs : List (String × List ℝ)) (rep : GroupReport),
        calculateGroupStats gs = some rep →
        ((∃ a, rep.p = JSNum.num a ∧ 0 ≤ a ∧ a ≤ 1) ∨ rep.p = JSNum.nan) ∧
        ∀ c ∈ rep.pairwise,
          (∃ a, c.p = JSNum.num a ∧ 0 ≤ a ∧ a ≤ 1) ∨ c.p = JSNum.nan) := by
  constructor
  · intro data vars res hres
    obtain ⟨xv, -, yv, -, rfl⟩ := mem_getCorrelationMatrix.mp hres
    exact corrEntry_p_mem data xv yv
  · intro gs rep hrep
    obtain ⟨hk, -, rfl⟩ := calculateGroupStats_eq_some.mp hrep
    constructor
    · obtain ⟨t, df, hp⟩ := mkGroupReport_p_shape gs
      rw [hp]
      exact getPFromT_mem t df
    · intro c hc
      rw [mkGroupReport_pairwise hk] at hc
      obtain ⟨q, -, rfl⟩ := List.mem_map.mp hc
      obtain ⟨t, df, hp⟩ := pairwiseTest_p_shape q.1 q.2
      rw [hp]
      exact getPFromT_mem t df

/-- C2, witness: the amended theorem applied to a one-column dataset and
to the degenerate two-group input. -/
theorem engine_p_values_unit_or_nan_witness :
    (∃ a, (corrEntry [[("a", RawValue.num 1)]] "a" "a").p = JSNum.num a ∧
      0 ≤ a ∧ a ≤ 1) ∧
    ((∃ a, (mkGroupReport [("A", [(1:ℝ), 1]), ("B", [1, 1])]).p =
        JSNum.num a ∧ 0 ≤ a ∧ a ≤ 1) ∨
      (mkGroupReport [("A", [(1:ℝ), 1]), ("B", [1, 1])]).p = JSNum.nan) :=
  ⟨engine_p_values_unit_or_nan.1 [[("a", RawValue.num 1)]] ["a"]
      (corrEntry [[("a", RawValue.num 1)]] "a" "a")
      (by simp [getCorrelationMatrix]),
    (engine_p_values_unit_or_nan.2 [("A", [(1:ℝ), 1]), ("B", [1, 1])]
      (mkGroupReport [("A", [(1:ℝ), 1]), ("B", [1, 1])])
      (calculateGroupStats_eq_some.mpr ⟨by norm_num, by norm_num, rfl⟩)).1⟩

/-! ## Claim C1 -/

/-- C1, counterexample: with one empty group and one non-empty group (so
fewer than 2 non-empty groups), the engine still produces a report — the
claimed "no report" condition counts raw mapping keys, not non-empty
groups — and the report's F statistic is NaN rather than finite. -/
theorem groupStats_empty_group_cex :
    (([("A", ([] : List ℝ)), ("B", [0, 0, 0])].filter
        (fun g => !g.2.isEmpty)).length = 1) ∧
    calculateGroupStats [("A", ([] : List ℝ)), ("B", [0, 0, 0])] ≠ none ∧
    (mkGroupReport [("A", ([] : List ℝ)), ("B", [0, 0, 0])]).f = JSNum.nan := by
  refine ⟨by simp, ?_, ?_⟩
  · rw [calculateGroupStats_eq_some.mpr ⟨by norm_num, by norm_num, rfl⟩]
    simp
  · norm_num [mkGroupReport, groupData, mkGroupSummary, JSNum.sumJS,
      JSNum.div_num_num_of_ne]

/-- C1 (amended): `calculateGroupStats` returns no report exactly when
the mapping has fewer than 2 groups — counting empty groups — or the
total observation count is at most the group count (`dfWithin ≤ 0`); in
every other case it returns a report, whose numeric fields need not be
finite in degenerate cases. -/
theorem calculateGroupStats_none_iff (gs : List (String × List ℝ)) :
    calculateGroupStats gs = none ↔
      gs.length < 2 ∨ ((gs.flatMap Prod.snd).length : ℤ) ≤ (gs.length : ℤ) := by
  unfold calculateGroupStats
  split_ifs with h1 h2
  · simp [h1]
  · simp only [eq_self_iff_true, true_iff]
    omega
  · constructor
    · intro h
      exact absurd h (by simp)
    · intro h
      rcases h with h | h <;> omega

/-- C1, witness: the amended characterisation applied to the empty
mapping and to a two-group mapping with enough observations. -/
theorem calculateGroupStats_none_iff_witness :
    calculateGroupStats ([] : List (String × List ℝ)) = none ∧
      calculateGroupStats [("A", [(1:ℝ), 2]), ("B", [4, 5])] ≠ none :=
  ⟨(calculateGroupStats_none_iff []).mpr (Or.inl (by norm_num)),
    fun h => by
      have := (calculateGroupStats_none_iff
        [("A", [(1:ℝ), 2]), ("B", [4, 5])]).mp h
      norm_num at this⟩

/-! ## Claim C3 -/

/-- Real-valued SS-between of a grouped sample:
`Σ nᵢ (meanᵢ − grandMean)²`. -/
noncomputable def ssbR (gs : List (String × List ℝ)) : ℝ :=
  (gs.map (fun g => (g.2.length : ℝ) *
    (g.2.sum / g.2.length -
      (gs.flatMap Prod.snd).sum / (gs.flatMap Prod.snd).length) ^ 2)).sum

/-- Real-valued SS-within of a grouped sample: `Σᵢ Σ_b (b − meanᵢ)²`. -/
noncomputable def sswR (gs : List (String × List ℝ)) : ℝ :=
  (gs.map (fun g => (g.2.map (fun b => (b - g.2.sum / g.2.length) ^ 2)).sum)).sum

theorem ssbR_nonneg (gs : List (String × List ℝ)) : 0 ≤ ssbR gs := by
  refine List.sum_nonneg ?_
  intro x hx
  obtain ⟨g, -, rfl⟩ := List.mem_map.mp hx
  positivity

theorem sswR_nonneg (gs : List (String × List ℝ)) : 0 ≤ sswR gs := by
  refine List.sum_nonneg ?_
  intro x hx
  obtain ⟨g, -, rfl⟩ := List.mem_map.mp hx
  refine List.sum_nonneg ?_
  intro y hy
  obtain ⟨b, -, rfl⟩ := List.mem_map.mp hy
  positivity

theorem length_cast_ne_zero {vals : List ℝ} (h : vals ≠ []) :
    ((vals.length : ℝ)) ≠ 0 := by
  have h0 := List.length_pos.mpr h
  exact ne_of_gt (by exact_mod_cast h0)

theorem mkGroupSummary_mean {vals : List ℝ} (h : vals ≠ []) (nm : String) :
    (mkGroupSummary nm vals).mean = JSNum.num (vals.sum / vals.length) := by
  simp only [mkGroupSummary, JSNum.sumJS_map_num]
  rw [JSNum.div_num_num_of_ne (length_cast_ne_zero h)]

theorem foldl_ssq_num (l : List ℝ) (m c : ℝ) :
    (l.map JSNum.num).foldl
      (fun a b => JSNum.add a
        (JSNum.mul (JSNum.sub b (JSNum.num m)) (JSNum.sub b (JSNum.num m))))
      (JSNum.num c) =
      JSNum.num (c + (l.map (fun b => (b - m) ^ 2)).sum) := by
  induction l generalizing c with
  | nil => simp
  | cons x xs ih => simp [ih]; ring

theorem mkGroupSummary_ssq {vals : List ℝ} (h : vals ≠ []) (nm : String) :
    (mkGroupSummary nm vals).ssq =
      JSNum.num ((vals.map (fun b => (b - vals.sum / vals.length) ^ 2)).sum) := by
  simp only [mkGroupSummary, JSNum.sumJS_map_num,
    JSNum.div_num_num_of_ne (length_cast_ne_zero h), foldl_ssq_num]
  norm_num

theorem foldl_ssb_num (gs : List (String × List ℝ))
    (hne : ∀ g ∈ gs, g.2 ≠ []) (GM : ℝ) : ∀ c : ℝ,
    (groupData gs).foldl
      (fun acc g => JSNum.add acc (JSNum.mul (JSNum.num (g.n : ℝ))
        (JSNum.mul (JSNum.sub g.mean (JSNum.num GM))
          (JSNum.sub g.mean (JSNum.num GM))))) (JSNum.num c) =
      JSNum.num (c + (gs.map (fun g => (g.2.length : ℝ) *
        (g.2.sum / g.2.length - GM) ^ 2)).sum) := by
  induction gs with
  | nil => intro c; simp [groupData]
  | cons g rest ih =>
      intro c
      have hg : g.2 ≠ [] := hne g (by simp)
      have hrest : ∀ q ∈ rest, q.2 ≠ [] := fun q hq => hne q (by simp [hq])
      simp only [groupData, List.map_cons, List.foldl_cons]
      rw [mkGroupSummary_mean hg]
      have hn : ((mkGroupSummary g.1 g.2).n : ℝ) = (g.2.length : ℝ) := rfl
      rw [hn]
      simp only [JSNum.sub_num_num, JSNum.mul_num_num, JSNum.add_num_num]
      have := ih hrest (c + (g.2.length : ℝ) *
        ((g.2.sum / g.2.length + -GM) * (g.2.sum / g.2.length + -GM)))
      simp only [groupData] at this
      rw [this]
      simp only [List.map_cons, List.sum_cons, JSNum.num_inj]
      ring

theorem foldl_ssw_num (gs : List (String × List ℝ))
    (hne : ∀ g ∈ gs, g.2 ≠ []) : ∀ c : ℝ,
    (groupData gs).foldl (fun acc g => JSNum.add acc g.ssq) (JSNum.num c) =
      JSNum.num (c + (gs.map (fun g =>
        (g.2.map (fun b => (b - g.2.sum / g.2.length) ^ 2)).sum)).sum) := by
  induction gs with
  | nil => intro c; simp [groupData]
  | cons g rest ih =>
      intro c
      have hg : g.2 ≠ [] := hne g (by simp)
      have hrest : ∀ q ∈ rest, q.2 ≠ [] := fun q hq => hne q (by simp [hq])
      simp only [groupData, List.map_cons, List.foldl_cons]
      rw [mkGroupSummary_ssq hg]
      simp only [JSNum.add_num_num]
      have := ih hrest (c + (g.2.map (fun b => (b - g.2.sum / g.2.length) ^ 2)).sum)
      simp only [groupData] at this
      rw [this]
      simp only [List.map_cons, List.sum_cons, JSNum.num_inj]
      ring

theorem flatMap_ne_nil {gs : List (String × List ℝ)} (h1 : 1 ≤ gs.length)
    (hne : ∀ g ∈ gs, g.2 ≠ []) : gs.flatMap Prod.snd ≠ [] := by
  match gs with
  | [] => simp at h1
  | g :: rest =>
      have hg : g.2 ≠ [] := hne g (by simp)
      simp only [List.flatMap_cons]
      intro hcontra
      exact hg (List.append_eq_nil.mp hcontra).1

theorem mkGroupReport_etaSq_num (gs : List (String × List ℝ))
    (h1 : 1 ≤ gs.length) (hne : ∀ g ∈ gs, g.2 ≠ [])
    (hts : ssbR gs + sswR gs ≠ 0) :
    (mkGroupReport gs).etaSq = JSNum.num (ssbR gs / (ssbR gs + sswR gs)) := by
  have htot : gs.flatMap Prod.snd ≠ [] := flatMap_ne_nil h1 hne
  have hlen : (((gs.flatMap Prod.snd).length : ℝ)) ≠ 0 :=
    length_cast_ne_zero htot
  simp only [mkGroupReport, JSNum.sumJS_map_num,
    JSNum.div_num_num_of_ne hlen]
  rw [foldl_ssb_num gs hne ((gs.flatMap Prod.snd).sum /
    ((gs.flatMap Prod.snd).length : ℝ)) 0]
  rw [foldl_ssw_num gs hne 0]
  simp only [zero_add]
  rw [show (gs.map (fun g => (g.2.length : ℝ) *
      (g.2.sum / g.2.length - (gs.flatMap Prod.snd).sum /
        ((gs.flatMap Prod.snd).length : ℝ)) ^ 2)).sum = ssbR gs from rfl]
  rw [show (gs.map (fun g =>
      (g.2.map (fun b => (b - g.2.sum / g.2.length) ^ 2)).sum)).sum =
      sswR gs from rfl]
  rw [JSNum.add_num_num, JSNum.div_num_num_of_ne hts]

/-- C3, counterexample: on two groups of two identical observations each
the engine produces a report, but its effect size `etaSq = 0/0` is NaN,
not a number in `[0, 1]`. -/
theorem groupStats_etaSq_nan_cex :
    calculateGroupStats [("A", [(1:ℝ), 1]), ("B", [1, 1])] =
      some (mkGroupReport [("A", [(1:ℝ), 1]), ("B", [1, 1])]) ∧
    (mkGroupReport [("A", [(1:ℝ), 1]), ("B", [1, 1])]).etaSq = JSNum.nan := by
  refine ⟨calculateGroupStats_eq_some.mpr ⟨by norm_num, by norm_num, rfl⟩, ?_⟩
  norm_num [mkGroupReport, groupData, mkGroupSummary, JSNum.sumJS,
    JSNum.div_num_num_of_ne]

/-- C3 (amended): for every grouped input for which a report is produced,
with all groups non-empty and a nonzero total sum of squares, the effect
size `etaSq = SS-between / (SS-between + SS-within)` is a number in
`[0, 1]`; when the total sum of squares is zero, `etaSq` is NaN instead. -/
theorem groupStats_etaSq_mem_unit (gs : List (String × List ℝ))
    (rep : GroupReport) (hrep : calculateGroupStats gs = some rep)
    (hne : ∀ g ∈ gs, g.2 ≠ []) (hts : ssbR gs + sswR gs ≠ 0) :
    ∃ x, rep.etaSq = JSNum.num x ∧ 0 ≤ x ∧ x ≤ 1 := by
  obtain ⟨hk, -, rfl⟩ := calculateGroupStats_eq_some.mp hrep
  rw [mkGroupReport_etaSq_num gs (by omega) hne hts]
  have hb := ssbR_nonneg gs
  have hw := sswR_nonneg gs
  have hpos : 0 < ssbR gs + sswR gs := by
    rcases lt_or_eq_of_le (by linarith : (0:ℝ) ≤ ssbR gs + sswR gs) with h | h
    · exact h
    · exact absurd h.symm hts
  refine ⟨_, rfl, div_nonneg hb hpos.le, ?_⟩
  rw [div_le_one hpos]
  linarith

/-- C3, witness: the amended theorem applied to two well-separated
groups of two observations each. -/
theorem groupStats_etaSq_mem_unit_witness :
    ∃ x, (mkGroupReport [("A", [(1:ℝ), 2]), ("B", [4, 5])]).etaSq =
      JSNum.num x ∧ 0 ≤ x ∧ x ≤ 1 :=
  groupStats_etaSq_mem_unit [("A", [(1:ℝ), 2]), ("B", [4, 5])]
    (mkGroupReport [("A", [(1:ℝ), 2]), ("B", [4, 5])])
    (calculateGroupStats_eq_some.mpr ⟨by norm_num, by norm_num, rfl⟩)
    (by simp)
    (by norm_num [ssbR, sswR])

/-! ## Claims C4 and C6: summary statistics -/

theorem present_eq_not (v : RawValue) :
    present v = !(v == RawValue.null || v == RawValue.undefined ||
      v == RawValue.str "") := by
  simp only [present]
  cases v == RawValue.null <;> cases v == RawValue.undefined <;>
    cases v == RawValue.str "" <;> rfl

theorem filter_missing_eq (values : List RawValue) :
    values.filter (fun v => v == RawValue.null || v == RawValue.undefined ||
      v == RawValue.str "") = values.filter (fun v => !(present v)) := by
  refine List.filter_congr ?_
  intro v hv
  rw [present_eq_not, Bool.not_not]

/-- C6: in every branch of `calculateSummaryStats` — categorical/unknown,
numerical with an empty numeric pool, and numerical with a non-empty
pool — `count + missing` equals the number of input values. -/
theorem summaryStats_count_add_missing (values : List RawValue)
    (type : VariableType) :
    (calculateSummaryStats values type).count +
      (calculateSummaryStats values type).missing = values.length := by
  have hle : (values.filter present).length ≤ values.length :=
    List.length_filter_le _ _
  simp only [calculateSummaryStats]
  by_cases h1 : type = .categorical ∨ type = .unknown
  · rw [if_pos h1]
    dsimp only
    omega
  · rw [if_neg h1]
    by_cases h2 : (numsOf values).length = 0
    · rw [if_pos h2]
      dsimp only
      omega
    · rw [if_neg h2]
      dsimp only
      omega

/-- C4, counterexample: a whitespace-only string is counted as present
(it only compares unequal to the untrimmed empty string), contributing
to `count` and not to `missing`; and in the numerical branch a present
but unparseable value ("abc") is reported as missing when the numeric
pool comes out empty. -/
theorem summaryStats_whitespace_cex :
    (calculateSummaryStats [RawValue.str " "] .categorical).missing = 0 ∧
    (calculateSummaryStats [RawValue.str " "] .categorical).count = 1 ∧
    (calculateSummaryStats [RawValue.str "abc"] .numerical).missing = 1 ∧
    (calculateSummaryStats [RawValue.str "abc"] .numerical).count = 0 := by
  have habc : numberOfString "abc" = none := by decide
  refine ⟨?_, ?_, ?_, ?_⟩ <;>
    simp [calculateSummaryStats, present, numsOf, jsNumberQ, habc]

/-- C4 (amended): a value counts as missing exactly when it is the
absence marker (`null`/`undefined`) or the *untrimmed* empty string — a
whitespace-only string counts as present — except that the numerical
branch with an empty numeric pool reports every value as missing. -/
theorem summaryStats_missing_iff (values : List RawValue)
    (type : VariableType) :
    ((type = .categorical ∨ type = .unknown ∨ numsOf values ≠ []) →
      (calculateSummaryStats values type).missing =
        (values.filter (fun v => v == RawValue.null || v == RawValue.undefined ||
          v == RawValue.str "")).length ∧
      (calculateSummaryStats values type).count =
        (values.filter present).length) ∧
    (type = .numerical → numsOf values = [] →
      (calculateSummaryStats values type).count = 0 ∧
      (calculateSummaryStats values type).missing = values.length) := by
  have hsplit := @List.length_eq_length_filter_add _ values present
  rw [filter_missing_eq]
  constructor
  · intro hbranch
    simp only [calculateSummaryStats]
    by_cases h1 : type = .categorical ∨ type = .unknown
    · rw [if_pos h1]
      dsimp only
      exact ⟨by omega, rfl⟩
    · rw [if_neg h1]
      have h2 : ¬(numsOf values).length = 0 := by
        intro h2
        rcases hbranch with h | h | h
        · exact h1 (Or.inl h)
        · exact h1 (Or.inr h)
        · exact h (List.length_eq_zero.mp h2)
      rw [if_neg h2]
      dsimp only
      exact ⟨by omega, rfl⟩
  · intro htype hempty
    simp only [calculateSummaryStats]
    have h1 : ¬(type = .categorical ∨ type = .unknown) := by
      rintro (h | h) <;> rw [htype] at h <;> cases h
    rw [if_neg h1, if_pos (by rw [hempty]; rfl)]
    exact ⟨rfl, rfl⟩

/-- C4, witness: the amended missing-count characterisation applied to a
concrete categorical column. -/
theorem summaryStats_missing_iff_witness :
    (calculateSummaryStats [RawValue.str " ", RawValue.null]
        .categorical).missing =
      ([RawValue.str " ", RawValue.null].filter
        (fun v => v == RawValue.null || v == RawValue.undefined ||
          v == RawValue.str "")).length ∧
    (calculateSummaryStats [RawValue.str " ", RawValue.null]
        .categorical).count =
      ([RawValue.str " ", RawValue.null].filter present).length :=
  (summaryStats_missing_iff [RawValue.str " ", RawValue.null]
    .categorical).1 (Or.inl rfl)

/-! ## Claim C5: symmetry of the correlation matrix -/

theorem corrPairs_swap (data : List Row) (xv yv : String) :
    corrPairs data yv xv = (corrPairs data xv yv).map Prod.swap := by
  unfold corrPairs
  induction data with
  | nil => rfl
  | cons row rest ih =>
      simp only [List.map_cons, List.filter_cons]
      by_cases hx : (jsNumber (rowGet row xv)).isNan = false
      · by_cases hy : (jsNumber (rowGet row yv)).isNan = false
        · rw [if_pos (by simp [hx, hy]), if_pos (by simp [hx, hy])]
          simp only [List.map_cons, Prod.swap]
          rw [ih]
        · have hy' : (jsNumber (rowGet row yv)).isNan = true := by
            simpa using hy
          rw [if_neg (by simp [hy']), if_neg (by simp [hy'])]
          exact ih
      · have hx' : (jsNumber (rowGet row xv)).isNan = true := by
          simpa using hx
        rw [if_neg (by simp [hx']), if_neg (by simp [hx'])]
        exact ih

theorem foldl_mul_swap (l : List (JSNum × JSNum)) : ∀ init : JSNum,
    l.foldl (fun s p => JSNum.add s (JSNum.mul p.2 p.1)) init =
      l.foldl (fun s p => JSNum.add s (JSNum.mul p.1 p.2)) init := by
  induction l with
  | nil => intro init; rfl
  | cons q rest ih =>
      intro init
      simp only [List.foldl_cons]
      rw [JSNum.mul_comm2 q.2 q.1]
      exact ih _

/-- `calculatePearson` is symmetric in its two samples. -/
theorem calculatePearson_comm (x y : List JSNum) :
    calculatePearson y x = calculatePearson x y := by
  unfold calculatePearson
  by_cases hlen : x.length = y.length
  · simp only [hlen]
    have hzip : y.zip x = (x.zip y).map Prod.swap := (List.zip_swap x y).symm
    have hXY : (y.zip x).foldl
        (fun s p => JSNum.add s (JSNum.mul p.1 p.2)) (JSNum.num 0) =
        (x.zip y).foldl
          (fun s p => JSNum.add s (JSNum.mul p.1 p.2)) (JSNum.num 0) := by
      rw [hzip, List.foldl_map]
      exact foldl_mul_swap _ _
    rw [hXY, JSNum.mul_comm2 (JSNum.sumJS y) (JSNum.sumJS x),
      JSNum.mul_comm2
        (JSNum.sub (JSNum.mul (JSNum.num (y.length : ℝ))
          (y.foldl (fun s a => JSNum.add s (JSNum.mul a a)) (JSNum.num 0)))
          (JSNum.mul (JSNum.sumJS y) (JSNum.sumJS y)))
        (JSNum.sub (JSNum.mul (JSNum.num (y.length : ℝ))
          (x.foldl (fun s a => JSNum.add s (JSNum.mul a a)) (JSNum.num 0)))
          (JSNum.mul (JSNum.sumJS x) (JSNum.sumJS x)))]
  · rw [if_pos (Or.inl (Ne.symm hlen)), if_pos (Or.inl hlen)]

/-- C5 (confirmed): for every rows input and variable list, the records
for `(x, y)` and `(y, x)` in the correlation matrix have the same sample
size and exactly equal correlation coefficients (hence equal within any
tolerance, in particular 1e-9). -/
theorem correlationMatrix_symm (data : List Row) (vars : List String)
    (res : CorrelationResult) (hres : res ∈ getCorrelationMatrix data vars) :
    ∃ res2 ∈ getCorrelationMatrix data vars,
      res2.x = res.y ∧ res2.y = res.x ∧ res2.n = res.n ∧ res2.r = res.r := by
  obtain ⟨xv, hx, yv, hy, rfl⟩ := mem_getCorrelationMatrix.mp hres
  refine ⟨corrEntry data yv xv,
    mem_getCorrelationMatrix.mpr ⟨yv, hy, xv, hx, rfl⟩, rfl, rfl, ?_, ?_⟩
  · show (corrPairs data yv xv).length = (corrPairs data xv yv).length
    rw [corrPairs_swap, List.length_map]
  · show calculatePearson ((corrPairs data yv xv).map Prod.fst)
        ((corrPairs data yv xv).map Prod.snd) = _
    rw [corrPairs_swap, List.map_map, List.map_map]
    have e1 : (Prod.fst ∘ Prod.swap : JSNum × JSNum → JSNum) = Prod.snd := rfl
    have e2 : (Prod.snd ∘ Prod.swap : JSNum × JSNum → JSNum) = Prod.fst := rfl
    rw [e1, e2]
    exact calculatePearson_comm _ _

/-- C5, witness: symmetry instantiated on a concrete two-column dataset. -/
theorem correlationMatrix_symm_witness :
    ∃ res2 ∈ getCorrelationMatrix
        [[("a", RawValue.num 1), ("b", RawValue.num 2)],
         [("a", RawValue.num 2), ("b", RawValue.num 5)]] ["a", "b"],
      res2.x = "b" ∧ res2.y = "a" ∧
      res2.n = (corrEntry
        [[("a", RawValue.num 1), ("b", RawValue.num 2)],
         [("a", RawValue.num 2), ("b", RawValue.num 5)]] "a" "b").n ∧
      res2.r = (corrEntry
        [[("a", RawValue.num 1), ("b", RawValue.num 2)],
         [("a", RawValue.num 2), ("b", RawValue.num 5)]] "a" "b").r :=
  correlationMatrix_symm
    [[("a", RawValue.num 1), ("b", RawValue.num 2)],
     [("a", RawValue.num 2), ("b", RawValue.num 5)]] ["a", "b"]
    (corrEntry [[("a", RawValue.num 1), ("b", RawValue.num 2)],
      [("a", RawValue.num 2), ("b", RawValue.num 5)]] "a" "b")
    (mem_getCorrelationMatrix.mpr
      ⟨"a", by simp, "b", by simp, rfl⟩)

/-! ## Claim C10: self-correlation -/

theorem corrEntry_x (data : List Row) (xv yv : String) :
    (corrEntry data xv yv).x = xv := rfl

theorem corrEntry_y (data : List Row) (xv yv : String) :
    (corrEntry data xv yv).y = yv := rfl

/-- Pearson variance-like denominator factor `n·Σv² − (Σv)²` of a single
sample. -/
def pearsonDen (l : List ℝ) : ℝ :=
  l.length * (l.map (fun v => v ^ 2)).sum - l.sum ^ 2

theorem diag_sumFst (l : List ℝ) :
    sumFst (l.map fun v => (v, v)) = l.sum := by
  simp [sumFst, List.map_map, Function.comp_def]

theorem diag_sumSnd (l : List ℝ) :
    sumSnd (l.map fun v => (v, v)) = l.sum := by
  simp [sumSnd, List.map_map, Function.comp_def]

theorem diag_sumFstSq (l : List ℝ) :
    sumFstSq (l.map fun v => (v, v)) = (l.map (fun v => v ^ 2)).sum := by
  simp [sumFstSq, List.map_map, Function.comp_def]

theorem diag_sumSndSq (l : List ℝ) :
    sumSndSq (l.map fun v => (v, v)) = (l.map (fun v => v ^ 2)).sum := by
  simp [sumSndSq, List.map_map, Function.comp_def]

theorem diag_sumProd (l : List ℝ) :
    sumProd (l.map fun v => (v, v)) = (l.map (fun v => v ^ 2)).sum := by
  simp only [sumProd, List.map_map, Function.comp_def]
  congr 1
  refine List.map_congr_left ?_
  intro v hv
  ring

theorem diag_pearsonVarX (l : List ℝ) :
    pearsonVarX (l.map fun v => (v, v)) = pearsonDen l := by
  simp [pearsonVarX, pearsonDen, diag_sumFst, diag_sumFstSq]

theorem diag_pearsonVarY (l : List ℝ) :
    pearsonVarY (l.map fun v => (v, v)) = pearsonDen l := by
  simp [pearsonVarY, pearsonDen, diag_sumSnd, diag_sumSndSq]

theorem diag_pearsonNum (l : List ℝ) :
    pearsonNum (l.map fun v => (v, v)) = pearsonDen l := by
  simp [pearsonNum, pearsonDen, diag_sumFst, diag_sumSnd, diag_sumProd, sq]

theorem pearsonDen_nonneg (l : List ℝ) : 0 ≤ pearsonDen l := by
  rw [← diag_pearsonVarX]
  exact pearsonVarX_nonneg _

/-- Value of `calculatePearson` on a finite real paired sample: 0 on a
degenerate denominator, the usual quotient otherwise. -/
theorem calculatePearson_eval (L : List (ℝ × ℝ)) :
    calculatePearson (L.map fun p => JSNum.num p.1)
        (L.map fun p => JSNum.num p.2) =
      if Real.sqrt (pearsonVarX L * pearsonVarY L) = 0 then JSNum.num 0
      else JSNum.num (pearsonNum L /
        Real.sqrt (pearsonVarX L * pearsonVarY L)) := by
  rcases Nat.eq_zero_or_pos L.length with hn | hn
  · rw [List.length_eq_zero] at hn; subst hn
    simp [calculatePearson, pearsonVarX, pearsonVarY, pearsonNum,
      sumFst, sumSnd, sumProd]
  have hX : (L.map fun p => JSNum.num p.1) = (L.map Prod.fst).map JSNum.num := by
    rw [List.map_map]; rfl
  have hY : (L.map fun p => JSNum.num p.2) = (L.map Prod.snd).map JSNum.num := by
    rw [List.map_map]; rfl
  have hSX : JSNum.sumJS (L.map fun p => JSNum.num p.1) = JSNum.num (sumFst L) := by
    rw [hX, JSNum.sumJS_map_num]; rfl
  have hSY : JSNum.sumJS (L.map fun p => JSNum.num p.2) = JSNum.num (sumSnd L) := by
    rw [hY, JSNum.sumJS_map_num]; rfl
  have hXY : ((L.map fun p => JSNum.num p.1).zip
        (L.map fun p => JSNum.num p.2)).foldl
      (fun s p => JSNum.add s (JSNum.mul p.1 p.2)) (JSNum.num 0) =
      JSNum.num (sumProd L) := by
    rw [zip_map_num, foldl_prod_num]; norm_num
  have hX2 : (L.map fun p => JSNum.num p.1).foldl
      (fun s a => JSNum.add s (JSNum.mul a a)) (JSNum.num 0) =
      JSNum.num (sumFstSq L) := by
    rw [hX, foldl_sq_num]
    rw [List.map_map]
    norm_num [sumFstSq]
    rfl
  have hY2 : (L.map fun p => JSNum.num p.2).foldl
      (fun s a => JSNum.add s (JSNum.mul a a)) (JSNum.num 0) =
      JSNum.num (sumSndSq L) := by
    rw [hY, foldl_sq_num]
    rw [List.map_map]
    norm_num [sumSndSq]
    rfl
  have hprod : (0 : ℝ) ≤ pearsonVarX L * pearsonVarY L :=
    mul_nonneg (pearsonVarX_nonneg L) (pearsonVarY_nonneg L)
  have hguard : ¬((L.map fun p => JSNum.num p.1).length ≠
      (L.map fun p => JSNum.num p.2).length ∨
      (L.map fun p => JSNum.num p.1).length = 0) := by
    rw [not_or]
    refine ⟨by simp, ?_⟩
    simp only [List.length_map]
    omega
  simp only [calculatePearson]
  rw [if_neg hguard]
  rw [hSX, hSY, hXY, hX2, hY2]
  simp only [List.length_map, JSNum.mul_num_num, JSNum.sub_num_num]
  have eA : ((L.length : ℝ) * sumFstSq L + -(sumFst L * sumFst L)) =
      pearsonVarX L := by rw [pearsonVarX]; ring
  have eB : ((L.length : ℝ) * sumSndSq L + -(sumSnd L * sumSnd L)) =
      pearsonVarY L := by rw [pearsonVarY]; ring
  have eN : ((L.length : ℝ) * sumProd L + -(sumFst L * sumSnd L)) =
      pearsonNum L := by rw [pearsonNum]; ring
  rw [eA, eB, eN, JSNum.sqrt_num_of_nonneg hprod]
  by_cases hz : Real.sqrt (pearsonVarX L * pearsonVarY L) = 0
  · rw [if_pos (by rw [hz]), if_pos hz]
  · rw [if_neg (by simpa using hz), if_neg hz, JSNum.div_num_num_of_ne hz]

/-- On a self-pair with positive variance factor, `calculatePearson`
returns exactly 1. -/
theorem calculatePearson_self (l : List ℝ) (hA : 0 < pearsonDen l) :
    calculatePearson (l.map JSNum.num) (l.map JSNum.num) = JSNum.num 1 := by
  have hL1 : (l.map JSNum.num) =
      ((l.map fun v => ((v : ℝ), (v : ℝ))).map fun p => JSNum.num p.1) := by
    rw [List.map_map]; rfl
  have hL2 : (l.map JSNum.num) =
      ((l.map fun v => ((v : ℝ), (v : ℝ))).map fun p => JSNum.num p.2) := by
    rw [List.map_map]; rfl
  have heval := calculatePearson_eval (l.map fun v => ((v : ℝ), (v : ℝ)))
  rw [← hL1, ← hL2] at heval
  rw [heval]
  rw [diag_pearsonVarX, diag_pearsonVarY, diag_pearsonNum]
  have hsqrt : Real.sqrt (pearsonDen l * pearsonDen l) = pearsonDen l :=
    Real.sqrt_mul_self hA.le
  rw [hsqrt, if_neg hA.ne', div_self hA.ne']

/-- C10 (confirmed): a self-pair entry of the correlation matrix whose
pairwise-complete values are all finite with nonzero variance factor has
`r = 1` exactly. -/
theorem selfCorrelation_r_one (data : List Row) (vars : List String)
    (res : CorrelationResult) (hres : res ∈ getCorrelationMatrix data vars)
    (hxy : res.x = res.y) (l : List ℝ)
    (hl : corrPairs data res.x res.y =
      l.map fun v => (JSNum.num v, JSNum.num v))
    (hA : pearsonDen l ≠ 0) : res.r = JSNum.num 1 := by
  obtain ⟨xv, -, yv, -, rfl⟩ := mem_getCorrelationMatrix.mp hres
  have hxy' : xv = yv := hxy
  subst hxy'
  have hl' : corrPairs data xv xv =
      l.map fun v => (JSNum.num v, JSNum.num v) := hl
  have hApos : 0 < pearsonDen l :=
    lt_of_le_of_ne (pearsonDen_nonneg l) (Ne.symm hA)
  show calculatePearson ((corrPairs data xv xv).map Prod.fst)
    ((corrPairs data xv xv).map Prod.snd) = JSNum.num 1
  rw [hl', List.map_map, List.map_map]
  have e1 : (l.map (Prod.fst ∘ fun v => (JSNum.num v, JSNum.num v))) =
      l.map JSNum.num := rfl
  have e2 : (l.map (Prod.snd ∘ fun v => (JSNum.num v, JSNum.num v))) =
      l.map JSNum.num := rfl
  rw [e1, e2]
  exact calculatePearson_self l hApos

/-- C10, witness: the self-pair of a three-row column `[1, 2, 3]` has
`r = 1` exactly. -/
theorem selfCorrelation_r_one_witness :
    (corrEntry [[("a", RawValue.num 1)], [("a", RawValue.num 2)],
      [("a", RawValue.num 3)]] "a" "a").r = JSNum.num 1 :=
  selfCorrelation_r_one
    [[("a", RawValue.num 1)], [("a", RawValue.num 2)],
      [("a", RawValue.num 3)]] ["a"]
    (corrEntry [[("a", RawValue.num 1)], [("a", RawValue.num 2)],
      [("a", RawValue.num 3)]] "a" "a")
    (mem_getCorrelationMatrix.mpr ⟨"a", by simp, "a", by simp, rfl⟩)
    rfl [(1:ℝ), 2, 3]
    (by norm_num [corrEntry_x, corrEntry_y, corrPairs, rowGet, jsNumber,
      jsNumberQ, List.lookup])
    (by norm_num [pearsonDen])

/-! ## Claim C7: the type classifier -/

/-- C7, counterexample: a column with numeric-like fraction 2/3 (which
strictly exceeds 0.5) is classified `categorical`, because the code
requires *every* non-missing value to be numeric-like; and a column with
zero non-missing values is classified `unknown`, not `categorical`. -/
theorem classify_threshold_cex :
    classifyValues [.str "1", .str "2", .str "x"] = .categorical ∧
    ((1 : ℚ) / 2 < 2 / 3) ∧
    classifyValues [] = .unknown := by
  refine ⟨by decide, by norm_num, by decide⟩

/-- C7 (amended): the classifier marks a column `numerical` iff it has at
least one non-missing value and every non-missing value is numeric-like
(the threshold is unanimity, not a strict majority); a column with zero
non-missing values is classified `unknown`. -/
theorem classify_numerical_iff (values : List RawValue) :
    (classifyValues values = .numerical ↔
      values.filter present ≠ [] ∧
      ∀ v ∈ values.filter present, numericLike v = true) ∧
    (values.filter present = [] → classifyValues values = .unknown) := by
  simp only [classifyValues]
  by_cases h0 : (values.filter present).length > 0
  · rw [if_pos h0]
    have hne : values.filter present ≠ [] := by
      intro h
      rw [h] at h0
      simp at h0
    constructor
    · by_cases hall : (values.filter present).all numericLike = true
      · rw [if_pos hall]
        simp only [true_iff]
        exact ⟨hne, List.all_eq_true.mp hall⟩
      · rw [if_neg hall]
        constructor
        · intro h; cases h
        · rintro ⟨-, h⟩
          exact absurd (List.all_eq_true.mpr h) hall
    · intro h
      exact absurd h hne
  · rw [if_neg h0]
    constructor
    · constructor
      · intro h; cases h
      · rintro ⟨h, -⟩
        exfalso
        refine h (List.length_eq_zero.mp ?_)
        omega
    · intro h
      rfl

/-- C7, witness: the amended classifier characterisation applied to an
all-numeric column and to the empty column. -/
theorem classify_numerical_iff_witness :
    classifyValues [RawValue.num 1, RawValue.null, RawValue.str "2"] =
      .numerical ∧ classifyValues [] = .unknown :=
  ⟨(classify_numerical_iff [RawValue.num 1, RawValue.null,
      RawValue.str "2"]).1.mpr ⟨by decide, by decide⟩,
    (classify_numerical_iff []).2 rfl⟩

/-! ## Claim C8: idempotence of forced numeric re-classification -/

theorem coerceCell_idem (v : RawValue) :
    coerceCell (coerceCell v) = coerceCell v := by
  by_cases h : (v = .null ∨ v = .undefined ∨ strTrimEmpty v = true)
  · have hit : coerceCell v = RawValue.null := by
      simp only [coerceCell]
      rw [if_pos h]
    rw [hit]
    simp [coerceCell]
  · cases hv : jsParseFloatQ v with
    | none =>
        have hit : coerceCell v = RawValue.null := by
          simp only [coerceCell, hv]
          rw [if_neg h]
        rw [hit]
        simp [coerceCell]
    | some q =>
        have hit : coerceCell v = RawValue.num q := by
          simp only [coerceCell, hv]
          rw [if_neg h]
        rw [hit]
        simp [coerceCell, strTrimEmpty, jsParseFloatQ]

theorem forceVariable_fix (v : DataVariable) :
    forceVariable (forceVariable v) = forceVariable v := by
  have hmap : (v.values.map coerceCell).map coerceCell =
      v.values.map coerceCell := by
    rw [List.map_map]
    exact List.map_congr_left (fun a _ => coerceCell_idem a)
  by_cases hcond : (shouldBeNumeric v.values || (v.type == .numerical)) = true
  · have h1 : forceVariable v =
        ⟨v.name, .numerical, v.values.map coerceCell,
          calculateSummaryStats (v.values.map coerceCell) .numerical⟩ := by
      simp only [forceVariable]
      rw [if_pos hcond]
    rw [h1]
    simp only [forceVariable]
    rw [if_pos (by simp)]
    simp only [hmap]
  · have h1 : forceVariable v = v := by
      simp only [forceVariable]
      rw [if_neg hcond]
    rw [h1, h1]

/-- C8 (confirmed): applying `forceNumericalAll` to a dataset that is
already its output leaves every variable's kind, value sequence and
`VariableStats` unchanged. -/
theorem forceNumericalAll_idempotent (d : Dataset) :
    ((forceNumericalAll (forceNumericalAll d)).vars.map DataVariable.type =
      (forceNumericalAll d).vars.map DataVariable.type) ∧
    ((forceNumericalAll (forceNumericalAll d)).vars.map DataVariable.values =
      (forceNumericalAll d).vars.map DataVariable.values) ∧
    ((forceNumericalAll (forceNumericalAll d)).vars.map DataVariable.stats =
      (forceNumericalAll d).vars.map DataVariable.stats) := by
  have hvars : (forceNumericalAll (forceNumericalAll d)).vars =
      (forceNumericalAll d).vars := by
    show ((d.vars.map forceVariable).map forceVariable) =
      d.vars.map forceVariable
    rw [List.map_map]
    exact List.map_congr_left (fun a _ => forceVariable_fix a)
  rw [hvars]
  exact ⟨rfl, rfl, rfl⟩

/-! ## Claim C9: degenerate pairwise t-tests -/

theorem stars_one : getSignificanceStars (JSNum.num 1) = "" := by
  unfold getSignificanceStars
  rw [if_neg (by norm_num [JSNum.lt]), if_neg (by norm_num [JSNum.lt]),
    if_neg (by norm_num [JSNum.lt])]

/-- C9 (confirmed): a pairwise comparison between two groups of exactly
one observation each (`df = n1 + n2 - 2 = 0`) yields `p = 1.0` and no
significance stars — `getPFromT` returns 1.0 on `df ≤ 0` before the NaN
pooled variance is ever consulted — and the pairwise records of every
produced report are exactly the `pairwiseTest` results over the ordered
group pairs. -/
theorem pairwise_df_zero_neutral :
    (∀ g1 g2 : GroupSummary, g1.n = 1 → g2.n = 1 →
      (pairwiseTest g1 g2).p = JSNum.num 1 ∧ (pairwiseTest g1 g2).sig = "") ∧
    (∀ (gs : List (String × List ℝ)) (rep : GroupReport),
      calculateGroupStats gs = some rep →
      rep.pairwise = (allPairs rep.groups).map
        (fun q => pairwiseTest q.1 q.2)) := by
  constructor
  · intro g1 g2 h1 h2
    have hdf : ((g1.n : ℤ) + (g2.n : ℤ) - 2) ≤ 0 := by
      rw [h1, h2]
      norm_num
    have hp : (pairwiseTest g1 g2).p =
        getPFromT (JSNum.div (JSNum.abs (JSNum.sub g1.mean g2.mean))
          (JSNum.sqrt (JSNum.mul
            (JSNum.div (JSNum.add
              (JSNum.mul (JSNum.num ((g1.n : ℝ) - 1)) g1.variance)
              (JSNum.mul (JSNum.num ((g2.n : ℝ) - 1)) g2.variance))
              (JSNum.num ((g1.n : ℝ) + (g2.n : ℝ) - 2)))
            (JSNum.add (JSNum.div (JSNum.num 1) (JSNum.num (g1.n : ℝ)))
              (JSNum.div (JSNum.num 1) (JSNum.num (g2.n : ℝ)))))))
          ((g1.n : ℤ) + (g2.n : ℤ) - 2) := rfl
    constructor
    · rw [hp, getPFromT_of_nonpos hdf]
    · have hs : (pairwiseTest g1 g2).sig =
          getSignificanceStars ((pairwiseTest g1 g2).p) := rfl
      rw [hs, hp, getPFromT_of_nonpos hdf, stars_one]
  · intro gs rep hrep
    obtain ⟨hk, -, rfl⟩ := calculateGroupStats_eq_some.mp hrep
    rw [mkGroupReport_groups]
    exact mkGroupReport_pairwise hk

/-- C9, witness: the neutral degenerate comparison on two singleton
groups, inside a mapping that does produce a report. -/
theorem pairwise_df_zero_neutral_witness :
    ((pairwiseTest (mkGroupSummary "A" [(5:ℝ)])
        (mkGroupSummary "B" [(7:ℝ)])).p = JSNum.num 1 ∧
      (pairwiseTest (mkGroupSummary "A" [(5:ℝ)])
        (mkGroupSummary "B" [(7:ℝ)])).sig = "") ∧
    (mkGroupReport [("A", [(5:ℝ)]), ("B", [(7:ℝ)]), ("C", [1, 2, 3])]).pairwise =
      (allPairs (mkGroupReport [("A", [(5:ℝ)]), ("B", [(7:ℝ)]),
        ("C", [1, 2, 3])]).groups).map (fun q => pairwiseTest q.1 q.2) :=
  ⟨pairwise_df_zero_neutral.1 (mkGroupSummary "A" [(5:ℝ)])
      (mkGroupSummary "B" [(7:ℝ)]) rfl rfl,
    pairwise_df_zero_neutral.2 [("A", [(5:ℝ)]), ("B", [(7:ℝ)]), ("C", [1, 2, 3])]
      (mkGroupReport [("A", [(5:ℝ)]), ("B", [(7:ℝ)]), ("C", [1, 2, 3])])
      (calculateGroupStats_eq_some.mpr ⟨by norm_num, by norm_num, rfl⟩)⟩
